import Mathlib

/-!
Verification of the `file-type-pdf` PDF/Illustrator content sniffer.

The development shallowly embeds the detector (`src/lib/index.ts`) and the
buffered reader (`PdfTokenizerReader.ts`) over pure byte lists.  Bytes are
`Nat`s, JS strings are `List Char` (`Str`), the strtok3 tokenizer is a byte
list plus a cursor, and every loop of the source is a fuel-structural
recursion whose fuel is computed from the state so that the function is a
plain total function of the state.  External capabilities that are not part
of this repository (the DecompressionStream deflate decoder, the utf-8 text
decoder, and the sax streaming XML parser) are supplied as an oracle
structure `Ext`; the code of this repository is embedded faithfully on top
of them.  Diagnostic `console.log` calls are modelled as a list of messages
(text abbreviated, call sites and `debug` gating mirrored) so that the
"debug has no behavioural effect" property is not vacuous.
-/

namespace FileTypePdf

/-- JS strings restricted to code points, as character lists. -/
abbrev Str := List Char

/-- Shorthand: the character list of a Lean string literal. -/
def S (s : String) : Str := s.toList

/-- Decode bytes as latin1, one char per byte (Buffer.toString("latin1")). -/
def latin1 (bs : List Nat) : Str := bs.map (fun b => Char.ofNat b)

/-- Encode an ASCII string as its byte list (used to build concrete inputs). -/
def asciiB (s : String) : List Nat := s.toList.map (fun c => c.toNat)

/-- Boolean list-prefix test (element-wise equality). -/
def listPre {α : Type} [DecidableEq α] : List α → List α → Bool
  | [], _ => true
  | _ :: _, [] => false
  | a :: as, b :: bs => decide (a = b) && listPre as bs

/-- First index at which `pat` occurs in the remaining list, counting from `i`. -/
def subIdxAux {α : Type} [DecidableEq α] (pat : List α) : List α → Nat → Option Nat
  | [], i => if listPre pat [] then some i else none
  | h :: t, i => if listPre pat (h :: t) then some i else subIdxAux pat t (i + 1)

/-- `String.prototype.indexOf` / `indexOfBytes`: first occurrence of `pat` in
`hay`, `none` standing for the source's `-1`.  An empty pattern matches at 0,
exactly as `indexOfBytes` returns 0 for an empty needle. -/
def subIdx {α : Type} [DecidableEq α] (hay pat : List α) : Option Nat :=
  subIdxAux pat hay 0

/-- `a.includes(b)`. -/
def strContains (hay pat : Str) : Bool := (subIdx hay pat).isSome

/-- `a.indexOf(b, start)`, result in full-string coordinates. -/
def strIndexOfFrom (hay pat : Str) (start : Nat) : Option Nat :=
  (subIdx (hay.drop start) pat).map (· + start)

/-- JS `\s` restricted to the ASCII whitespace characters that can occur in a
byte-sourced latin1 string: space, tab, LF, VT, FF, CR. -/
def jsWs (c : Char) : Bool :=
  c = ' ' || c = '\t' || c = '\n' || c = Char.ofNat 11 || c = Char.ofNat 12 || c = '\r'

/-- `String.prototype.trim`. -/
def strTrim (s : Str) : Str :=
  ((s.dropWhile jsWs).reverse.dropWhile jsWs).reverse

/-- `a.startsWith(b)`. -/
def strStarts (s p : Str) : Bool := listPre p s

/-- `a.endsWith(b)`. -/
def strEnds (s p : Str) : Bool := listPre p.reverse s.reverse

/-- `String.prototype.toLowerCase`, ASCII fragment. -/
def strLower (s : Str) : Str := s.map Char.toLower

/-- Regex `\d`. -/
def isDigitCh (c : Char) : Bool := '0' ≤ c && c ≤ '9'

/-- Regex `\w`. -/
def isWordChar (c : Char) : Bool :=
  ('a' ≤ c && c ≤ 'z') || ('A' ≤ c && c ≤ 'Z') || isDigitCh c || c = '_'

/-- Decimal value of a digit string. -/
def digitsVal (ds : Str) : Nat := ds.foldl (fun a c => a * 10 + (c.toNat - 48)) 0

/-- JS `parseInt(s, 10)`: skip whitespace, optional sign, then the maximal
digit prefix; `none` is `NaN` (no digits). -/
def jsParseInt (s : Str) : Option Int :=
  let s1 := s.dropWhile jsWs
  let signAndRest : Int × Str :=
    match s1 with
    | '-' :: t => (-1, t)
    | '+' :: t => (1, t)
    | _ => (1, s1)
  let ds := signAndRest.2.takeWhile isDigitCh
  if ds = [] then none else some (signAndRest.1 * (digitsVal ds : Int))

/-- `OBJ_REGEX = /^\s*(\d+)\s+(\d+)\s+obj\b/` as a match test. -/
def matchObjLine (l : Str) : Bool :=
  let a := l.dropWhile jsWs
  let d1 := a.takeWhile isDigitCh
  let b := a.drop d1.length
  let w1 := b.takeWhile jsWs
  let c := b.drop w1.length
  let d2 := c.takeWhile isDigitCh
  let d := c.drop d2.length
  let w2 := d.takeWhile jsWs
  let e := d.drop w2.length
  decide (d1 ≠ []) && decide (w1 ≠ []) && decide (d2 ≠ []) && decide (w2 ≠ []) &&
    strStarts e (S "obj") &&
    (match e.drop 3 with
     | [] => true
     | ch :: _ => !isWordChar ch)

/-! ## Dictionary parser (`parseDictFromRaw`) -/

/-- A PDF dictionary value: the bare-flag marker `true` or a trimmed string. -/
inductive DictValue : Type
  | flag : DictValue
  | str : Str → DictValue
deriving DecidableEq

/-- An object's dictionary, keyed by identifier (insertion order kept,
later assignments to the same key overwrite, as a JS object does). -/
abbrev Dict := List (Str × DictValue)

/-- `info[key] = value` on a JS object. -/
def dictInsert (d : Dict) (k : Str) (v : DictValue) : Dict :=
  if d.any (fun p => p.1 = k) then
    d.map (fun p => if p.1 = k then (k, v) else p)
  else d ++ [(k, v)]

/-- Property lookup on a JS object (undefined = `none`). -/
def dictGet (d : Dict) (k : Str) : Option DictValue :=
  (d.find? (fun p => p.1 = k)).map (·.2)

/-- Character class `[^/>\n\r]` of the dictionary-value capture. -/
def valueClass (c : Char) : Bool :=
  !(c = '/' || c = '>' || c = '\n' || c = '\r')

/-- Greedy-with-backtracking start of the optional value group
`(?:\s+([^/>\n\r]+))?`: after the key, `rest` begins with `k` whitespace
characters; the value (if the group matches) starts at the largest `i` with
`1 ≤ i ≤ k` whose character is in the value class, mirroring how the regex
engine backtracks `\s+` from its maximal extent. -/
def pickStart (rest : Str) : Nat → Option Nat
  | 0 => none
  | i + 1 =>
    match rest.drop (i + 1) with
    | c :: _ => if valueClass c then some (i + 1) else pickStart rest i
    | [] => pickStart rest i

/-- The optional value group of one key match: `r` is the text right after
the `\w+` key; the group fails (bare flag) or captures the maximal
value-class run from the backtracked start, trimmed. -/
def pkmValue (key r : Str) : Option (Str × DictValue × Str) :=
  match pickStart r (r.takeWhile jsWs).length with
  | none => some (key, .flag, r)
  | some i =>
    some (key, .str (strTrim ((r.drop i).takeWhile valueClass)),
      r.drop (i + ((r.drop i).takeWhile valueClass).length))

/-- Attempt of the regex `\/(\w+)(?:\s+([^/>\n\r]+))?` at a slash whose
following text is `afterSlash`: `none` when `\w+` cannot match (the global
scan then resumes after the slash), else the key, the value and the text
after the match's end. -/
def parseKeyMatch (afterSlash : Str) : Option (Str × DictValue × Str) :=
  if afterSlash.takeWhile isWordChar = [] then none
  else
    pkmValue (afterSlash.takeWhile isWordChar)
      (afterSlash.drop (afterSlash.takeWhile isWordChar).length)

/-- One `exec` round plus continuation of the global regex
`/\/(\w+)(?:\s+([^/>\n\r]+))?/g` over the raw dictionary text. -/
def parseDictAux : Nat → Str → Dict → Dict
  | 0, _, acc => acc
  | fuel + 1, s, acc =>
    match (s.dropWhile (fun c => !(c = '/'))) with
    | [] => acc
    | _ :: afterSlash =>
      match parseKeyMatch afterSlash with
      | none => parseDictAux fuel afterSlash acc
      | some (key, v, rest) => parseDictAux fuel rest (dictInsert acc key v)

/-- `parseDictFromRaw`. -/
def parseDictFromRaw (raw : Str) : Dict := parseDictAux (raw.length + 1) raw []

/-! ## Stream filter decoding -/

/-- The fixed filter vocabulary, in the source's alternation order. -/
def filterNames : List Str :=
  [S "FlateDecode", S "ASCII85Decode", S "LZWDecode", S "RunLengthDecode"]

/-- Global scan of `/FlateDecode|ASCII85Decode|LZWDecode|RunLengthDecode/g`. -/
def scanFilters : Nat → Str → List Str
  | 0, _ => []
  | _, [] => []
  | fuel + 1, s@(_ :: t) =>
    match filterNames.find? (fun n => listPre n s) with
    | some n => n :: scanFilters fuel (s.drop n.length)
    | none => scanFilters fuel t

/-- `[...new Set(names)]`: deduplicate keeping first occurrences. -/
def dedupKeepFirst (l : List Str) : List Str :=
  l.foldl (fun acc n => if n ∈ acc then acc else acc ++ [n]) []

/-- `normalizeFilters`: empty for a missing, bare-flag or empty-string
`Filter` value, else the recognized names in order, deduplicated. -/
def normalizeFilters (v : Option DictValue) : List Str :=
  match v with
  | none => []
  | some .flag => []
  | some (.str s) => if s = [] then [] else dedupKeepFirst (scanFilters (s.length + 1) s)

/-! ## External capabilities and error taxonomy -/

/-- A sax event as surfaced to the `XmlHandler` callbacks. -/
inductive SaxEvent : Type
  | openTag (uri localName nm : Str)
  | text (t : Str)
  | closeTag
  | err (msg : Str)

/-- The external capabilities consumed by the detector: the two deflate
decode attempts of `DecompressionStream` ("deflate" and "deflate-raw"),
`textDecode(…, 'utf-8')`, and the sax parser viewed as the event stream it
produces for a given text feed. -/
structure Ext : Type where
  inflateZlib : List Nat → Option (List Nat)
  inflateRaw : List Nat → Option (List Nat)
  utf8Decode : List Nat → Str
  saxEvents : Str → List SaxEvent

/-- The failures that can propagate out of `_detectPdf`. -/
inductive DetectErr : Type
  | eofSkip
  | streamDecodeFail
  | xmlFatal (msg : Str)
deriving DecidableEq

/-- `inflateFlateDecode`: zlib-wrapped deflate, retrying as raw deflate. -/
def inflateFlateDecode (ext : Ext) (d : List Nat) : Except DetectErr (List Nat) :=
  match ext.inflateZlib d with
  | some o => .ok o
  | none =>
    match ext.inflateRaw d with
    | some o => .ok o
    | none => .error .streamDecodeFail

/-- The `for (const f of filters)` loop of `decodeStreamBytes`; `raw` is the
original payload that an unsupported filter name returns verbatim. -/
def applyFilters (ext : Ext) (raw : List Nat) : List Str → List Nat → Except DetectErr (List Nat)
  | [], out => .ok out
  | f :: fs, out =>
    if f = S "FlateDecode" then
      match inflateFlateDecode ext out with
      | .error e => .error e
      | .ok o => applyFilters ext raw fs o
    else .ok raw

/-- `decodeStreamBytes`. -/
def decodeStreamBytes (ext : Ext) (info : Dict) (raw : List Nat) : Except DetectErr (List Nat) :=
  let filters := normalizeFilters (dictGet info (S "Filter"))
  if filters = [] then .ok raw else applyFilters ext raw filters raw

/-! ## Classification results and subtype probes -/

/-- An (extension, MIME) classification pair. -/
structure FileTypeResult : Type where
  ext : String
  mime : String
deriving DecidableEq

/-- `PDF_TYPE`. -/
def PDF_TYPE : FileTypeResult := ⟨"pdf", "application/pdf"⟩

/-- `AI_TYPE`. -/
def AI_TYPE : FileTypeResult := ⟨"ai", "application/illustrator"⟩

/-- A subtype probe: a name and three optional hooks.  The source's hooks
also receive a `ProbeContext` that they only ever use for logging; the
embedded hooks drop it. -/
structure SubtypeProbe : Type where
  name : String
  onDict : Option (Str → Dict → Option FileTypeResult)
  onCreatorTool : Option (Str → Option FileTypeResult)
  onStreamText : Option (Str → Dict → Option FileTypeResult)

/-- `Creator`/`Producer` test of the Illustrator probe:
`creator && creator !== true && String(creator).includes("Illustrator")`
(a missing value, the bare flag and the empty string all fail). -/
def creatorHit (v : Option DictValue) : Bool :=
  match v with
  | some (.str s) => decide (s ≠ []) && strContains s (S "Illustrator")
  | _ => false

/-- Dictionary hook of the Illustrator probe. -/
def illuOnDict (dictText : Str) (dict : Dict) : Option FileTypeResult :=
  if dictGet dict (S "Illustrator") = some DictValue.flag then some AI_TYPE
  else if strContains dictText (S "/Illustrator") then some AI_TYPE
  else if creatorHit (dictGet dict (S "Creator")) then some AI_TYPE
  else if creatorHit (dictGet dict (S "Producer")) then some AI_TYPE
  else if strContains dictText (S "Adobe Illustrator") then some AI_TYPE
  else none

/-- Creator-tool hook of the Illustrator probe. -/
def illuOnCreatorTool (creatorTool : Str) : Option FileTypeResult :=
  if strContains (strLower creatorTool) (S "illustrator") then some AI_TYPE else none

/-- Stream-text hook of the Illustrator probe. -/
def illuOnStreamText (streamText : Str) (_objectInfo : Dict) : Option FileTypeResult :=
  if strContains streamText (S "Adobe Illustrator") then some AI_TYPE else none

/-- `createIllustratorProbe()`. -/
def createIllustratorProbe : SubtypeProbe :=
  ⟨"adobe-illustrator", some illuOnDict, some illuOnCreatorTool, some illuOnStreamText⟩

/-- The registered probes, in declaration order. -/
def subtypeProbes : List SubtypeProbe := [createIllustratorProbe]

/-- The probes' creator-tool hooks, in order. -/
def creatorToolListeners (ps : List SubtypeProbe) : List (Str → Option FileTypeResult) :=
  ps.filterMap (·.onCreatorTool)

/-- Dictionary checkpoint: first probe whose `onDict` hook returns a result. -/
def runDictProbes : List SubtypeProbe → Str → Dict → Option FileTypeResult
  | [], _, _ => none
  | p :: ps, dt, info =>
    match p.onDict with
    | none => runDictProbes ps dt info
    | some f =>
      match f dt info with
      | some r => some r
      | none => runDictProbes ps dt info

/-- Stream-text checkpoint: first probe whose `onStreamText` hook hits. -/
def runStreamProbes : List SubtypeProbe → Str → Dict → Option FileTypeResult
  | [], _, _ => none
  | p :: ps, st, info =>
    match p.onStreamText with
    | none => runStreamProbes ps st info
    | some f =>
      match f st info with
      | some r => some r
      | none => runStreamProbes ps st info

/-! ## XMP creator-tool extraction (`XmlHandler` over the sax event stream) -/

/-- The `onopentag` predicate: resolved-namespace match or name fallback. -/
def isCreatorToolTag (uri localName nm : Str) : Bool :=
  (uri = S "http://ns.adobe.com/xap/1.0/" && localName = S "CreatorTool") ||
    nm = S "xap:CreatorTool" || strEnds nm (S ":CreatorTool") || nm = S "CreatorTool"

/-- First creator-tool listener returning a classification (the source
`throw`s the hit out of the sax callbacks; the orchestrator catches it). -/
def firstListenerHit : List (Str → Option FileTypeResult) → Str → Option FileTypeResult
  | [], _ => none
  | f :: fs, v =>
    match f v with
    | some r => some r
    | none => firstListenerHit fs v

/-- Folding the `XmlHandler` state machine over the sax events:
`readingCreatorTool` is set by each open tag, a text event while set feeds
the listeners (first hit ends everything), close tags reset it, and
invalid-character-entity errors are swallowed while any other parse error is
fatal. -/
def runXmlHandler (listeners : List (Str → Option FileTypeResult)) :
    List SaxEvent → Bool → Except DetectErr (Option FileTypeResult)
  | [], _ => .ok none
  | .openTag uri ln nm :: es, _ => runXmlHandler listeners es (isCreatorToolTag uri ln nm)
  | .closeTag :: es, _ => runXmlHandler listeners es false
  | .text t :: es, reading =>
    if reading then
      match firstListenerHit listeners t with
      | some r => .ok (some r)
      | none => runXmlHandler listeners es false
    else runXmlHandler listeners es reading
  | .err m :: es, reading =>
    if strStarts m (S "Invalid character entity") then runXmlHandler listeners es reading
    else .error (.xmlFatal m)

/-- The `looksLikeXmp` test of the scanner (all five source disjuncts,
including the two that compare against slash-prefixed strings). -/
def looksLikeXmp (info : Dict) : Bool :=
  decide (dictGet info (S "Type") = some (DictValue.str (S "Metadata"))) ||
  decide (dictGet info (S "Type") = some (DictValue.str (S "/Metadata"))) ||
  decide (dictGet info (S "Subtype") = some (DictValue.str (S "XML"))) ||
  decide (dictGet info (S "Subtype") = some (DictValue.str (S "/XML"))) ||
  decide (dictGet info (S "XML") = some DictValue.flag)

/-! ## Byte source (strtok3 tokenizer) and header sniffer -/

/-- The byte source: immutable content plus the absolute read position. -/
structure Tok : Type where
  data : List Nat
  pos : Nat
deriving DecidableEq

/-- Bytes still unread by the tokenizer. -/
def tokAvail (t : Tok) : Nat := t.data.length - t.pos

/-- `peekBuffer` with `mayBeLess`: up to `n` bytes, no position change. -/
def tokPeek (t : Tok) (n : Nat) : List Nat := (t.data.drop t.pos).take n

/-- The `%PDF-` magic. -/
def pdfSig : List Nat := asciiB "%PDF-"

/-- `peekPdfHeader`: search the first 1024 peeked bytes for the signature;
`some off` is `{ isPdf: true, headerOffset: off }`, `none` the no-match
result (which the source also returns when the peek yields nothing). -/
def peekPdfHeader (t : Tok) : Option Nat := subIdx (tokPeek t 1024) pdfSig

/-- The chunked exact-read loop of `skipBytes`; an exhausted source makes the
underlying exact `readBuffer` fail, which propagates. -/
def skipBytesAux : Nat → Tok → Nat → Except DetectErr Tok
  | 0, t, _ => .ok t
  | fuel + 1, t, left =>
    if left = 0 then .ok t
    else
      let len := min 65536 left
      if tokAvail t < len then .error .eofSkip
      else skipBytesAux fuel ⟨t.data, t.pos + len⟩ (left - len)

/-- `skipBytes` (`n ≤ 0` returns immediately). -/
def skipBytes (t : Tok) (n : Nat) : Except DetectErr Tok :=
  if n = 0 then .ok t else skipBytesAux n t n

/-- `if (headerOffset > 0) await skipBytes(tokenizer, headerOffset)`. -/
def headerAdvance (t : Tok) (off : Nat) : Except DetectErr Tok :=
  if off > 0 then skipBytes t off else .ok t

/-! ## Buffered line/byte reader (`PdfTokenizerReader`) -/

/-- Reader state: the wrapped tokenizer, the internal buffer, the cursor
into it, and the end-of-file latch. -/
structure RdSt : Type where
  tok : Tok
  buf : List Nat
  pos : Nat
  eof : Bool
deriving DecidableEq

/-- A fresh reader over a tokenizer. -/
def mkReader (t : Tok) : RdSt := ⟨t, [], 0, false⟩

/-- Buffered-but-unconsumed byte count. -/
def avail (st : RdSt) : Nat := st.buf.length - st.pos

/-- Source bytes not yet pulled into the buffer. -/
def srcAvail (st : RdSt) : Nat := tokAvail st.tok

/-- The logical bytes the reader has not yet delivered: buffered tail then
unread source. -/
def remaining (st : RdSt) : List Nat :=
  st.buf.drop st.pos ++ st.tok.data.drop st.tok.pos

/-- `chunkSize` default. -/
def chunkSize : Nat := 65536

/-- The `fill` loop: while not at EOF and fewer than `minB` bytes buffered,
compact, peek a chunk, then read exactly what was peeked and append it;
a zero-byte peek latches `eof`. -/
def fillAux : Nat → RdSt → Nat → RdSt
  | 0, st, _ => st
  | fuel + 1, st, minB =>
    if st.eof then st
    else if minB ≤ avail st then st
    else
      let bufC := st.buf.drop st.pos
      let peeked := min chunkSize (tokAvail st.tok)
      if peeked = 0 then ⟨st.tok, bufC, 0, true⟩
      else
        let chunk := tokPeek st.tok peeked
        fillAux fuel ⟨⟨st.tok.data, st.tok.pos + peeked⟩, bufC ++ chunk, 0, st.eof⟩ minB

/-- `fill(minBytes)`. -/
def fill (st : RdSt) (minB : Nat) : RdSt := fillAux (srcAvail st + 1) st minB

/-- Strip one trailing `\r` (`0x0d`) from a line buffer, exactly as the
source does before returning a `\n`-terminated line. -/
def stripCR (l : List Nat) : List Nat :=
  if l.getLast? = some 13 then l.dropLast else l

/-- The `readLine` loop: look for `\n` in the buffered tail; otherwise fill
by one more byte; if nothing arrived and EOF is latched, return the
unterminated tail once (or the no-more-lines signal when it is empty). -/
def readLineAux : Nat → RdSt → Option Str × RdSt
  | 0, st => (none, st)
  | fuel + 1, st =>
    match subIdx (st.buf.drop st.pos) [10] with
    | some i =>
      let lineB := (st.buf.drop st.pos).take i
      (some (latin1 (stripCR lineB)), ⟨st.tok, st.buf, st.pos + i + 1, st.eof⟩)
    | none =>
      let before := avail st
      let st1 := fill st (before + 1)
      if avail st1 = before ∧ st1.eof = true then
        if before = 0 then (none, st1)
        else (some (latin1 (st1.buf.drop st1.pos)), ⟨st1.tok, st1.buf, st1.buf.length, st1.eof⟩)
      else readLineAux fuel st1

/-- `readLine()`. -/
def readLine (st : RdSt) : Option Str × RdSt := readLineAux (srcAvail st + 1) st

/-- `readBytes(n)`: exactly `n` bytes or the insufficient-data signal. -/
def readBytes (st : RdSt) (n : Nat) : Option (List Nat) × RdSt :=
  if n = 0 then (some [], st)
  else
    let st1 := fill st n
    if avail st1 < n then (none, st1)
    else (some ((st1.buf.drop st1.pos).take n), ⟨st1.tok, st1.buf, st1.pos + n, st1.eof⟩)

/-- `consumeStreamEol()`: eat exactly one `\r`, `\n` or `\r\n`. -/
def consumeStreamEol (st : RdSt) : RdSt :=
  let st1 := fill st 1
  if avail st1 = 0 then st1
  else
    match st1.buf.get? st1.pos with
    | some 13 =>
      let st2 := fill st1 2
      if 2 ≤ avail st2 ∧ st2.buf.get? (st2.pos + 1) = some 10 then
        ⟨st2.tok, st2.buf, st2.pos + 2, st2.eof⟩
      else ⟨st2.tok, st2.buf, st2.pos + 1, st2.eof⟩
    | some 10 => ⟨st1.tok, st1.buf, st1.pos + 1, st1.eof⟩
    | _ => st1

/-! ## Dictionary-block accumulation (`readDictionaryBlock`) -/

/-- After the accumulation loop: locate `<< … >>`, trim the body, and test
whether the `stream` keyword follows inline. -/
def dictBlockFinish (st : RdSt) (raw : Str) : Option Str × Bool × RdSt :=
  match subIdx raw (S "<<") with
  | none => (none, false, st)
  | some s =>
    match strIndexOfFrom raw (S ">>") (s + 2) with
    | none => (none, false, st)
    | some e =>
      let dictText := strTrim ((raw.drop (s + 2)).take (e - (s + 2)))
      let after := strTrim (raw.drop (e + 2))
      (some dictText, (after = S "stream" || strStarts after (S "stream ")), st)

/-- The `while (!raw.includes(">>"))` accumulation loop, joining continuation
lines with `\n` and stopping at end of input. -/
def dictBlockAux : Nat → RdSt → Str → Option Str × Bool × RdSt
  | 0, st, raw => dictBlockFinish st raw
  | fuel + 1, st, raw =>
    if strContains raw (S ">>") then dictBlockFinish st raw
    else
      match readLine st with
      | (none, st1) => dictBlockFinish st1 raw
      | (some l, st1) => dictBlockAux fuel st1 (raw ++ '\n' :: l)

/-- `readDictionaryBlock(reader, firstLine)`. -/
def readDictionaryBlock (st : RdSt) (firstLine : Str) : Option Str × Bool × RdSt :=
  dictBlockAux ((remaining st).length + 1) st firstLine

/-! ## The object-scanner state machine -/

/-- Scanner state: the reader, the single-slot pushed-back line, and the
state-machine mode (`0` = ROOT, `10` = OBJ). -/
structure Core : Type where
  rd : RdSt
  pending : Option Str
  mode : Nat

/-- The `readLine` wrapper with single-line pushback. -/
def wrapperRead (c : Core) : Option Str × Core :=
  match c.pending with
  | some l => (some l, ⟨c.rd, none, c.mode⟩)
  | none =>
    match readLine c.rd with
    | (l, rd1) => (l, ⟨rd1, none, c.mode⟩)

/-- Outcome of one loop iteration: continue scanning, or finish the whole
call with a result (`.ok none` stands for a `break` out of the loop). -/
inductive StepOut : Type
  | cont
  | done (r : Except DetectErr (Option FileTypeResult))

/-- Payload phase: `consumeStreamEol`, read the declared length, decode,
run stream probes, and conditionally feed the XMP extractor. -/
def streamPayloadPhase (ext : Ext) (info : Dict) (c : Core) (n : Nat) :
    StepOut × Core × List String :=
  let rd1 := consumeStreamEol c.rd
  match readBytes rd1 n with
  | (none, rd2) => (.done (.ok none), ⟨rd2, c.pending, c.mode⟩, ["stream read"])
  | (some raw, rd2) =>
    let c2 : Core := ⟨rd2, c.pending, c.mode⟩
    match decodeStreamBytes ext info raw with
    | .error e => (.done (.error e), c2, ["stream read"])
    | .ok decoded =>
      let streamText := ext.utf8Decode decoded
      match runStreamProbes subtypeProbes streamText info with
      | some hit => (.done (.ok (some hit)), c2, ["stream read"])
      | none =>
        let listeners := creatorToolListeners subtypeProbes
        if looksLikeXmp info && !listeners.isEmpty then
          match runXmlHandler listeners (ext.saxEvents streamText) false with
          | .error e => (.done (.error e), c2, ["stream read", "xmp fed"])
          | .ok (some r) => (.done (.ok (some r)), c2, ["stream read", "xmp fed"])
          | .ok none => (.cont, c2, ["stream read", "xmp fed", "stream done"])
        else (.cont, c2, ["stream read", "stream done"])

/-- Length gate: a missing, bare-flag or empty `Length`, a non-numeric
`parseInt` result, or a negative value skips the payload. -/
def streamLengthPhase (ext : Ext) (info : Dict) (c : Core) :
    StepOut × Core × List String :=
  match dictGet info (S "Length") with
  | none => (.cont, c, [])
  | some .flag => (.cont, c, [])
  | some (.str s) =>
    if s = [] then (.cont, c, [])
    else
      match jsParseInt s with
      | none => (.cont, c, [])
      | some v => if v < 0 then (.cont, c, []) else streamPayloadPhase ext info c v.toNat

/-- Stream gate: inline keyword, or a one-line lookahead pushed back when it
is not the `stream` keyword. -/
def streamGatePhase (ext : Ext) (info : Dict) (c : Core) (streamInline : Bool) :
    StepOut × Core × List String :=
  if streamInline then streamLengthPhase ext info c
  else
    match wrapperRead c with
    | (none, c1) => (.done (.ok none), c1, [])
    | (some nl, c1) =>
      if strTrim nl = S "stream" then streamLengthPhase ext info c1
      else (.cont, ⟨c1.rd, some nl, c1.mode⟩, [])

/-- Dictionary phase: accumulate the block, parse it, run dictionary probes,
then the stream gate. -/
def dictPhase (ext : Ext) (c : Core) (line : Str) : StepOut × Core × List String :=
  match readDictionaryBlock c.rd line with
  | (none, _, rd1) => (.cont, ⟨rd1, c.pending, c.mode⟩, [])
  | (some dictText, streamInline, rd1) =>
    let c1 : Core := ⟨rd1, c.pending, c.mode⟩
    let info := parseDictFromRaw dictText
    match runDictProbes subtypeProbes dictText info with
    | some hit => (.done (.ok (some hit)), c1, ["dict"])
    | none =>
      match streamGatePhase ext info c1 streamInline with
      | (o, c2, msgs) => (o, c2, "dict" :: msgs)

/-- One iteration of the scan loop (one counted line). -/
def stepScan (ext : Ext) (c : Core) : StepOut × Core × List String :=
  match wrapperRead c with
  | (none, c1) => (.done (.ok none), c1, [])
  | (some line, c1) =>
    if c1.mode = 0 then
      if matchObjLine line then (.cont, ⟨c1.rd, c1.pending, 10⟩, ["found object"])
      else (.cont, c1, [])
    else
      if strTrim line = S "endobj" then (.cont, ⟨c1.rd, c1.pending, 0⟩, ["obj to root"])
      else if strContains line (S "<<") = false then (.cont, c1, [])
      else dictPhase ext c1 line

/-- `if (debug) console.log(...)`: messages are kept only under `debug`. -/
def gate (debug : Bool) (msgs : List String) : List String :=
  if debug then msgs else []

/-- The `while (scannedLines++ < maxScanLines)` loop, fuelled by the line
budget; running out of fuel is the loop condition turning false. -/
def scanLoopAux (ext : Ext) (debug : Bool) :
    Nat → Core → Except DetectErr (Option FileTypeResult) × Core × List String
  | 0, c => (.ok none, c, [])
  | fuel + 1, c =>
    match stepScan ext c with
    | (.done r, c1, msgs) => (r, c1, gate debug msgs)
    | (.cont, c1, msgs) =>
      match scanLoopAux ext debug fuel c1 with
      | (r, c2, rest) => (r, c2, gate debug msgs ++ rest)

/-- Detection options (`debug`, `maxScanLines`). -/
structure Opts : Type where
  debug : Bool
  maxScanLines : Nat

/-- The defaults applied by `_detectPdf` (and by the exported `detect`,
which passes no options). -/
def defaultOpts : Opts := ⟨false, 50000⟩

/-- `_detectPdf`: peek-only signature gate, preamble skip, then the scan
loop; falling out of the loop yields the generic PDF classification.  The
result triple is (classification-or-error, final tokenizer, log). -/
def detectPdf (ext : Ext) (t : Tok) (o : Opts) :
    Except DetectErr (Option FileTypeResult) × Tok × List String :=
  match peekPdfHeader t with
  | none => (.ok none, t, [])
  | some off =>
    match headerAdvance t off with
    | .error e => (.error e, t, gate o.debug ["header found"])
    | .ok t1 =>
      match (scanLoopAux ext o.debug o.maxScanLines ⟨mkReader t1, none, 0⟩).1 with
      | .ok none =>
        (.ok (some PDF_TYPE),
          (scanLoopAux ext o.debug o.maxScanLines ⟨mkReader t1, none, 0⟩).2.1.rd.tok,
          gate o.debug ["header found", "root start"] ++
            (scanLoopAux ext o.debug o.maxScanLines ⟨mkReader t1, none, 0⟩).2.2 ++
            gate o.debug ["root done"])
      | r1 =>
        (r1, (scanLoopAux ext o.debug o.maxScanLines ⟨mkReader t1, none, 0⟩).2.1.rd.tok,
          gate o.debug ["header found", "root start"] ++
            (scanLoopAux ext o.debug o.maxScanLines ⟨mkReader t1, none, 0⟩).2.2)

/-! ## Specification-side line decomposition

`splitLine` and `linesOfBytes` state, directly from the claim's words, what
the reader is supposed to deliver: each maximal run of bytes up to a line
terminator with the terminator removed (`\n` and `\r\n` recognized), and any
unterminated trailing bytes once, verbatim. -/

/-- Split off the first line: up to the first `\n` with a preceding `\r`
removed, or the whole unterminated tail (`none` when nothing is left). -/
def splitLine (r : List Nat) : Option (List Nat × List Nat) :=
  match subIdx r [10] with
  | some i => some (stripCR (r.take i), r.drop (i + 1))
  | none => if r = [] then none else some (r, [])

/-- Iterated `splitLine`, fuelled. -/
def linesAux : Nat → List Nat → List Str
  | 0, _ => []
  | fuel + 1, r =>
    match splitLine r with
    | none => []
    | some (l, rest) => latin1 l :: linesAux fuel rest

/-- The full line decomposition of a byte sequence. -/
def linesOfBytes (r : List Nat) : List Str := linesAux (r.length + 1) r

/-! ## Remaining definitions used by the theorems -/

/-- Reader well-formedness: cursors in range, and the EOF latch only set
once the tokenizer is exhausted. -/
def Wf (st : RdSt) : Prop :=
  st.pos ≤ st.buf.length ∧ st.tok.pos ≤ st.tok.data.length ∧
    (st.eof = true → st.tok.pos = st.tok.data.length)

/-- The first component of the `k`-th `readLine()` call (0-based) on a
reader, the previous calls' states threaded through. -/
def readLineIter : Nat → RdSt → Option Str × RdSt
  | 0, st => readLine st
  | k + 1, st => readLineIter k (readLine st).2

/-- An oracle whose decompressor always fails, whose text decoder is the
identity on latin1 text, and whose sax parser produces no events. -/
def extTriv : Ext := ⟨fun _ => none, fun _ => none, latin1, fun _ => []⟩

/-- An oracle like `extTriv` whose sax parser reports one XMP
`CreatorTool` element containing an Illustrator marker. -/
def extXmp : Ext :=
  ⟨fun _ => none, fun _ => none, latin1,
    fun _ => [SaxEvent.openTag (S "http://ns.adobe.com/xap/1.0/") (S "CreatorTool")
        (S "xap:CreatorTool"),
      SaxEvent.text (S "Adobe Illustrator 25.0")]⟩

/-- `n` copies of a well-formed object-start line. -/
def objRep : Nat → List Nat
  | 0 => []
  | n + 1 => asciiB "1 0 obj\n" ++ objRep n

/-- A PDF prefix whose first object dictionary carries the bare
`Illustrator` flag. -/
def aiPre : List Nat := asciiB "%PDF-1.2\n1 0 obj\n<</Illustrator>>\n"

/-- A PDF whose only stream (no filter) contains the Illustrator marker
text, followed by further structure. -/
def aiStreamInput : List Nat :=
  asciiB "%PDF-1.4\n1 0 obj\n<</Length 17>>\nstream\nAdobe Illustrator\nendstream\nendobj\n"

/-- A PDF whose only stream is declared `/Subtype /XML` metadata. -/
def xmpInput : List Nat :=
  asciiB "%PDF-1.4\n1 0 obj\n<</Subtype /XML /Length 5>>\nstream\nhello\nendstream\nendobj\n"

/-- A PDF declaring a FlateDecode-only filter chain over a 4-byte payload. -/
def flateInput : List Nat :=
  asciiB "%PDF-1.4\n1 0 obj\n<</Filter FlateDecode /Length 4>>\nstream\nABCD\nendstream\nendobj\n"

/-- A PDF whose stream `Length` is the indirect reference `17 0 R`; the
17-byte payload that follows the `stream` keyword is the Illustrator
marker, so whether the payload is read is observable in the result. -/
def indirectLenInput : List Nat :=
  asciiB "%PDF-1.4\n1 0 obj\n<</Length 17 0 R>>\nstream\nAdobe Illustrator\nendobj\n"

/-- Dictionary whose declared filter chain mixes FlateDecode with an
unimplemented filter. -/
def mixedFilterInfo : Dict := parseDictFromRaw (S "/Filter FlateDecode LZWDecode")

/-- All characters of every string value a parsed dictionary stores lie in
the value capture class (no `/`, `>`, CR or LF). -/
def GoodDict (d : Dict) : Prop :=
  ∀ kv ∈ d, ∀ s, kv.2 = DictValue.str s → ∀ c ∈ s, valueClass c = true

/-! ## Searching lemmas -/

theorem listPre_length {α : Type} [DecidableEq α] :
    ∀ {p l : List α}, listPre p l = true → p.length ≤ l.length := by
  intro p
  induction p with
  | nil => intro l _; simp
  | cons a as ih =>
    intro l h
    cases l with
    | nil => simp [listPre] at h
    | cons b bs =>
      simp only [listPre, Bool.and_eq_true] at h
      simpa using Nat.succ_le_succ (ih h.2)

theorem listPre_append {α : Type} [DecidableEq α] :
    ∀ {p l : List α}, listPre p l = true → ∀ l', listPre p (l ++ l') = true := by
  intro p
  induction p with
  | nil => intro l _ l'; cases l ++ l' <;> rfl
  | cons a as ih =>
    intro l h l'
    cases l with
    | nil => simp [listPre] at h
    | cons b bs =>
      simp only [listPre, Bool.and_eq_true] at h ⊢
      exact ⟨h.1, ih h.2 l'⟩

theorem subIdxAux_none_iff {α : Type} [DecidableEq α] (pat : List α) :
    ∀ (l : List α) (i : Nat),
      subIdxAux pat l i = none ↔ ∀ j, listPre pat (l.drop j) = false := by
  intro l
  induction l with
  | nil =>
    intro i
    by_cases h : listPre pat [] = true
    · simp [subIdxAux, h]
    · simp only [Bool.not_eq_true] at h
      simp [subIdxAux, h]
  | cons a t ih =>
    intro i
    by_cases h : listPre pat (a :: t) = true
    · simp only [subIdxAux, h, if_true]
      constructor
      · intro hc; cases hc
      · intro hall
        have := hall 0
        simp [h] at this
    · simp only [Bool.not_eq_true] at h
      simp only [subIdxAux, h, Bool.false_eq_true, if_false]
      rw [ih]
      constructor
      · intro hall j
        cases j with
        | zero => simpa using h
        | succ j => simpa using hall j
      · intro hall j
        simpa using hall (j + 1)

theorem subIdx_none_iff {α : Type} [DecidableEq α] (l pat : List α) :
    subIdx l pat = none ↔ ∀ j, listPre pat (l.drop j) = false :=
  subIdxAux_none_iff pat l 0

theorem subIdx_zero_of_pre {α : Type} [DecidableEq α] {pat hay : List α}
    (h : listPre pat hay = true) : subIdx hay pat = some 0 := by
  cases hay <;> simp [subIdx, subIdxAux, h]

theorem subIdxAux_singleton_append {α : Type} [DecidableEq α] {b : α} {l₂ : List α} :
    ∀ {l₁ : List α} {i j : Nat}, subIdxAux [b] l₁ i = some j →
      subIdxAux [b] (l₁ ++ l₂) i = some j := by
  intro l₁
  induction l₁ with
  | nil => intro i j h; simp [subIdxAux, listPre] at h
  | cons a t ih =>
    intro i j h
    by_cases hb : b = a
    · simp_all [subIdxAux, listPre]
    · simp only [subIdxAux, listPre, List.cons_append] at h ⊢
      simp only [decide_eq_true_eq] at *
      rw [if_neg (by simpa using hb)] at h ⊢
      exact ih h

theorem subIdx_singleton_append {α : Type} [DecidableEq α] {b : α} {l₁ l₂ : List α} {j : Nat}
    (h : subIdx l₁ [b] = some j) : subIdx (l₁ ++ l₂) [b] = some j :=
  subIdxAux_singleton_append h

theorem subIdxAux_singleton_lt {α : Type} [DecidableEq α] {b : α} :
    ∀ {l : List α} {i j : Nat}, subIdxAux [b] l i = some j → j < i + l.length := by
  intro l
  induction l with
  | nil => intro i j h; simp [subIdxAux, listPre] at h
  | cons a t ih =>
    intro i j h
    by_cases hb : listPre [b] (a :: t) = true
    · simp only [subIdxAux, hb, if_true, Option.some.injEq] at h
      subst h; simp
    · simp only [Bool.not_eq_true] at hb
      simp only [subIdxAux, hb, Bool.false_eq_true, if_false] at h
      have := ih h
      simp only [List.length_cons]
      omega

theorem subIdx_singleton_lt {α : Type} [DecidableEq α] {b : α} {l : List α} {j : Nat}
    (h : subIdx l [b] = some j) : j < l.length := by
  have := subIdxAux_singleton_lt h
  omega

/-- Splitting the first line looks only at a prefix that contains a `\n`. -/
theorem splitLine_concat {pre rest : List Nat} {i : Nat} (h : subIdx pre [10] = some i) :
    splitLine (pre ++ rest) = some (stripCR (pre.take i), pre.drop (i + 1) ++ rest) := by
  have hlt : i < pre.length := subIdx_singleton_lt h
  simp only [splitLine, subIdx_singleton_append h]
  rw [List.take_append_of_le_length (by omega), List.drop_append_of_le_length (by omega)]

theorem splitLine_some_length {r l rest : List Nat} (h : splitLine r = some (l, rest)) :
    rest.length < r.length := by
  unfold splitLine at h
  cases hidx : subIdx r [10] with
  | some i =>
    rw [hidx] at h
    have hlt : i < r.length := subIdx_singleton_lt hidx
    simp only [Option.some.injEq, Prod.mk.injEq] at h
    have : rest = r.drop (i + 1) := h.2.symm
    subst this
    simp only [List.length_drop]
    omega
  | none =>
    rw [hidx] at h
    by_cases hr : r = []
    · simp [hr] at h
    · simp only [hr, if_false] at h
      simp only [Option.some.injEq, Prod.mk.injEq] at h
      have : rest = [] := h.2.symm
      subst this
      simpa using List.length_pos.mpr hr

theorem linesAux_adequate :
    ∀ (f₁ : Nat) (r : List Nat) (f₂ : Nat), r.length < f₁ → r.length < f₂ →
      linesAux f₁ r = linesAux f₂ r := by
  intro f₁
  induction f₁ with
  | zero => intro r f₂ h; omega
  | succ f ih =>
    intro r f₂ h₁ h₂
    cases f₂ with
    | zero => omega
    | succ f₂ =>
      simp only [linesAux]
      cases hs : splitLine r with
      | none => rfl
      | some p =>
        have hlen : p.2.length < r.length := splitLine_some_length (by simpa using hs)
        simp only []
        rw [ih p.2 f₂ (by omega) (by omega)]

/-- One-step unfolding of the full line decomposition. -/
theorem linesOfBytes_unfold (r : List Nat) :
    linesOfBytes r =
      match splitLine r with
      | none => []
      | some (l, rest) => latin1 l :: linesOfBytes rest := by
  unfold linesOfBytes
  cases hs : splitLine r with
  | none => simp [linesAux, hs]
  | some p =>
    obtain ⟨l, rest⟩ := p
    have hlen := splitLine_some_length hs
    simp only [linesAux, hs]
    rw [linesAux_adequate r.length rest (rest.length + 1) (by omega) (by omega)]
    simp only [linesAux]

/-! ## Reader refinement: `readLine` delivers the line decomposition -/

theorem remaining_length (st : RdSt) :
    (remaining st).length = avail st + srcAvail st := by
  simp [remaining, avail, srcAvail, tokAvail]

theorem wf_mkReader {t : Tok} (h : t.pos ≤ t.data.length) : Wf (mkReader t) := by
  refine ⟨by simp [mkReader], h, ?_⟩
  intro hc
  simp [mkReader] at hc

theorem fillAux_spec :
    ∀ (fuel : Nat) (st : RdSt) (n : Nat), Wf st → srcAvail st + 1 ≤ fuel →
      Wf (fillAux fuel st n) ∧ remaining (fillAux fuel st n) = remaining st ∧
        avail st ≤ avail (fillAux fuel st n) ∧
        (n ≤ avail (fillAux fuel st n) ∨ (fillAux fuel st n).eof = true) := by
  intro fuel
  induction fuel with
  | zero => intro st n _ hf; omega
  | succ fuel ih =>
    intro st n hwf hf
    by_cases he : st.eof = true
    · have hstep : fillAux (fuel + 1) st n = st := by simp [fillAux, he]
      rw [hstep]
      exact ⟨hwf, rfl, Nat.le_refl _, Or.inr he⟩
    · have he' : st.eof = false := by simpa using he
      by_cases hm : n ≤ avail st
      · have hstep : fillAux (fuel + 1) st n = st := by simp [fillAux, he', hm]
        rw [hstep]
        exact ⟨hwf, rfl, Nat.le_refl _, Or.inl hm⟩
      · by_cases hp : min chunkSize (tokAvail st.tok) = 0
        · have hstep : fillAux (fuel + 1) st n = ⟨st.tok, st.buf.drop st.pos, 0, true⟩ := by
            simp [fillAux, he', hm, hp]
          rw [hstep]
          have hpos : st.tok.pos = st.tok.data.length := by
            simp only [chunkSize, tokAvail] at hp
            have := hwf.2.1
            omega
          refine ⟨⟨by simp, hwf.2.1, fun _ => hpos⟩, ?_, ?_, Or.inr rfl⟩
          · simp [remaining]
          · simp [avail, List.length_drop]
        · have hstep : fillAux (fuel + 1) st n =
              fillAux fuel
                ⟨⟨st.tok.data, st.tok.pos + min chunkSize (tokAvail st.tok)⟩,
                  st.buf.drop st.pos ++ tokPeek st.tok (min chunkSize (tokAvail st.tok)),
                  0, st.eof⟩ n := by
            simp [fillAux, he', hm, hp]
          set peeked := min chunkSize (tokAvail st.tok) with hpk
          set st2 : RdSt :=
            ⟨⟨st.tok.data, st.tok.pos + peeked⟩,
              st.buf.drop st.pos ++ tokPeek st.tok peeked, 0, st.eof⟩ with hst2
          rw [hstep]
          have hple : peeked ≤ st.tok.data.length - st.tok.pos := by
            simp [hpk, tokAvail]
          have hwf2 : Wf st2 := by
            refine ⟨by simp [hst2], by simp [hst2]; omega, ?_⟩
            intro hc
            rw [hst2] at hc
            simp only [he'] at hc
            cases hc
          have hrem2 : remaining st2 = remaining st := by
            simp only [hst2, remaining, List.drop_zero, tokPeek, List.append_assoc]
            congr 1
            rw [← List.drop_drop]
            exact List.take_append_drop peeked (st.tok.data.drop st.tok.pos)
          have havail2 : avail st2 = avail st + peeked := by
            simp only [hst2, avail, List.length_append, List.length_drop, tokPeek,
              List.length_take]
            have := hwf.1
            omega
          have hsrc2 : srcAvail st2 + 1 ≤ fuel := by
            have h1 : srcAvail st2 = srcAvail st - peeked := by
              simp only [hst2, srcAvail, tokAvail]
              omega
            have hp1 : 1 ≤ peeked := Nat.one_le_iff_ne_zero.mpr hp
            have hps : peeked ≤ srcAvail st := by
              simp only [hpk, srcAvail, tokAvail]
              omega
            omega
          obtain ⟨w1, w2, w3, w4⟩ := ih st2 n hwf2 hsrc2
          refine ⟨w1, by rw [w2, hrem2], ?_, w4⟩
          omega

theorem fill_spec (st : RdSt) (n : Nat) (hwf : Wf st) :
    Wf (fill st n) ∧ remaining (fill st n) = remaining st ∧
      avail st ≤ avail (fill st n) ∧ (n ≤ avail (fill st n) ∨ (fill st n).eof = true) :=
  fillAux_spec (srcAvail st + 1) st n hwf (Nat.le_refl _)

theorem readLineAux_spec :
    ∀ (fuel : Nat) (st : RdSt), Wf st → srcAvail st + 1 ≤ fuel →
      Wf (readLineAux fuel st).2 ∧
        ((splitLine (remaining st) = none ∧ (readLineAux fuel st).1 = none ∧
            remaining (readLineAux fuel st).2 = []) ∨
          (∃ l rest, splitLine (remaining st) = some (l, rest) ∧
            (readLineAux fuel st).1 = some (latin1 l) ∧
            remaining (readLineAux fuel st).2 = rest)) := by
  intro fuel
  induction fuel with
  | zero => intro st _ hf; omega
  | succ fuel ih =>
    intro st hwf hf
    cases hidx : subIdx (st.buf.drop st.pos) [10] with
    | some i =>
      have hstep : readLineAux (fuel + 1) st =
          (some (latin1 (stripCR ((st.buf.drop st.pos).take i))),
            ⟨st.tok, st.buf, st.pos + i + 1, st.eof⟩) := by
        simp [readLineAux, hidx]
      rw [hstep]
      have hlt : i < (st.buf.drop st.pos).length := subIdx_singleton_lt hidx
      have hsplit : splitLine (st.buf.drop st.pos ++ st.tok.data.drop st.tok.pos) =
          some (stripCR ((st.buf.drop st.pos).take i),
            (st.buf.drop st.pos).drop (i + 1) ++ st.tok.data.drop st.tok.pos) :=
        splitLine_concat hidx
      refine ⟨?_, Or.inr ⟨stripCR ((st.buf.drop st.pos).take i),
        (st.buf.drop st.pos).drop (i + 1) ++ st.tok.data.drop st.tok.pos, ?_, rfl, ?_⟩⟩
      · refine ⟨?_, hwf.2.1, hwf.2.2⟩
        show st.pos + i + 1 ≤ st.buf.length
        simp only [List.length_drop] at hlt
        omega
      · simpa [remaining] using hsplit
      · simp [remaining, List.drop_drop, Nat.add_assoc]
    | none =>
      have hfill := fill_spec st (avail st + 1) hwf
      set st1 := fill st (avail st + 1) with hst1
      obtain ⟨hwf1, hrem1, hav1, hpost1⟩ := hfill
      by_cases hc : avail st1 = avail st ∧ st1.eof = true
      · have hsrcnil : st.tok.data.drop st.tok.pos = [] := by
          have := hwf1.2.2 hc.2
          have hlen := remaining_length st
          have hlen1 := remaining_length st1
          rw [hrem1] at hlen1
          have hsrc0 : srcAvail st = 0 := by
            have : srcAvail st1 = 0 := by simp [srcAvail, tokAvail, this]
            omega
          simp only [srcAvail, tokAvail] at hsrc0
          have : st.tok.data.length ≤ st.tok.pos := by omega
          exact List.drop_eq_nil_of_le this
        have hremst : remaining st = st.buf.drop st.pos := by
          simp [remaining, hsrcnil]
        have hsplitnone : subIdx (remaining st) [10] = none := by
          rw [hremst]; exact hidx
        by_cases hb : avail st = 0
        · have hbufnil : st.buf.drop st.pos = [] := by
            have : (st.buf.drop st.pos).length = 0 := by
              simp only [List.length_drop]; simpa [avail] using hb
            exact List.eq_nil_of_length_eq_zero this
          have hstep : readLineAux (fuel + 1) st = (none, st1) := by
            simp only [readLineAux, hidx]
            rw [← hst1]
            simp [hc.1, hc.2, hb]
          rw [hstep]
          have hremnil : remaining st = [] := by rw [hremst, hbufnil]
          refine ⟨hwf1, Or.inl ⟨?_, rfl, ?_⟩⟩
          · rw [hremnil]; rfl
          · rw [hrem1, hremnil]
        · have hstep : readLineAux (fuel + 1) st =
              (some (latin1 (st1.buf.drop st1.pos)),
                ⟨st1.tok, st1.buf, st1.buf.length, st1.eof⟩) := by
            simp only [readLineAux, hidx]
            rw [← hst1]
            simp [hc.1, hc.2, hb]
          rw [hstep]
          have hsrcnil1 : st1.tok.data.drop st1.tok.pos = [] := by
            have := hwf1.2.2 hc.2
            exact List.drop_eq_nil_of_le (Nat.le_of_eq this.symm)
          have hrem1' : remaining st = st1.buf.drop st1.pos := by
            rw [← hrem1]
            simp [remaining, hsrcnil1]
          have hsplit : splitLine (remaining st) =
              some (st1.buf.drop st1.pos, []) := by
            unfold splitLine
            rw [hsplitnone]
            have : remaining st ≠ [] := by
              rw [hremst]
              intro hcon
              apply hb
              simp [avail, ← List.length_drop (l := st.buf) (i := st.pos), hcon]
            simp only [this, if_false]
            rw [hrem1']
          refine ⟨⟨Nat.le_refl _, hwf1.2.1, hwf1.2.2⟩, Or.inr ⟨st1.buf.drop st1.pos, [], hsplit, rfl, ?_⟩⟩
          simp [remaining, hsrcnil1, List.drop_length]
      · have hstep : readLineAux (fuel + 1) st = readLineAux fuel st1 := by
          simp only [readLineAux, hidx]
          rw [← hst1]
          simp only [if_neg hc]
        rw [hstep]
        have hprog : avail st + 1 ≤ avail st1 := by
          rcases hpost1 with h | h
          · exact h
          · rcases Nat.lt_or_ge (avail st) (avail st1) with hlt | hge
            · omega
            · exfalso; exact hc ⟨Nat.le_antisymm hge hav1, h⟩
        have hsrc1 : srcAvail st1 + 1 ≤ fuel := by
          have hlen := remaining_length st
          have hlen1 := remaining_length st1
          rw [hrem1] at hlen1
          omega
        obtain ⟨w1, w2⟩ := ih st1 hwf1 hsrc1
        rw [hrem1] at w2
        exact ⟨w1, w2⟩

theorem readLine_spec (st : RdSt) (hwf : Wf st) :
    Wf (readLine st).2 ∧
      ((splitLine (remaining st) = none ∧ (readLine st).1 = none ∧
          remaining (readLine st).2 = []) ∨
        (∃ l rest, splitLine (remaining st) = some (l, rest) ∧
          (readLine st).1 = some (latin1 l) ∧ remaining (readLine st).2 = rest)) :=
  readLineAux_spec (srcAvail st + 1) st hwf (Nat.le_refl _)

theorem readLineIter_spec :
    ∀ (k : Nat) (st : RdSt), Wf st →
      (readLineIter k st).1 = (linesOfBytes (remaining st))[k]? := by
  intro k
  induction k with
  | zero =>
    intro st hwf
    obtain ⟨_, hspec⟩ := readLine_spec st hwf
    rcases hspec with ⟨hs, hr, _⟩ | ⟨l, rest, hs, hr, _⟩
    · rw [linesOfBytes_unfold, hs]
      simpa [readLineIter] using hr
    · rw [linesOfBytes_unfold, hs]
      simpa [readLineIter] using hr
  | succ k ih =>
    intro st hwf
    obtain ⟨hwf2, hspec⟩ := readLine_spec st hwf
    have hstep : readLineIter (k + 1) st = readLineIter k (readLine st).2 := rfl
    rw [hstep, ih (readLine st).2 hwf2]
    rcases hspec with ⟨hs, _, hrem⟩ | ⟨l, rest, hs, _, hrem⟩
    · rw [hrem, linesOfBytes_unfold (remaining st), hs]
      simp [linesOfBytes, linesAux, splitLine, subIdx, subIdxAux, listPre]
    · rw [hrem, linesOfBytes_unfold (remaining st), hs]
      simp

/-- Claim C8: repeated `readLine()` calls on the reader return, in order,
each maximal byte run up to a line terminator with the terminator removed
(`\n` and `\r\n` both recognized); at end of input any unterminated
trailing bytes form one final line, and every call past the last line
yields the no-more-lines signal — the `k`-th call's result is exactly the
`k`-th entry of the line decomposition `linesOfBytes` (out-of-range lookup
being `none`). -/
theorem c8_readLine_line_decomposition :
    ∀ (bs : List Nat) (k : Nat),
      (readLineIter k (mkReader ⟨bs, 0⟩)).1 = (linesOfBytes bs)[k]? := by
  intro bs k
  have h := readLineIter_spec k (mkReader ⟨bs, 0⟩) (wf_mkReader (by simp))
  simpa [remaining, mkReader] using h

/-! ## Dictionary-parser value invariant (C10) -/

theorem mem_strTrim {c : Char} {s : Str} (h : c ∈ strTrim s) : c ∈ s := by
  unfold strTrim at h
  rw [List.mem_reverse] at h
  have h1 := (List.dropWhile_sublist (l := (s.dropWhile jsWs).reverse) jsWs).subset h
  rw [List.mem_reverse] at h1
  exact (List.dropWhile_sublist (l := s) jsWs).subset h1

theorem goodDict_insert {d : Dict} {k : Str} {v : DictValue} (hd : GoodDict d)
    (hv : ∀ s, v = DictValue.str s → ∀ c ∈ s, valueClass c = true) :
    GoodDict (dictInsert d k v) := by
  unfold dictInsert
  by_cases hin : d.any (fun p => p.1 = k) = true
  · rw [if_pos hin]
    intro kv hkv s hs c hc
    obtain ⟨kv', hkv', hmap⟩ := List.mem_map.mp hkv
    by_cases he : kv'.1 = k
    · rw [if_pos he] at hmap
      subst hmap
      exact hv s hs c hc
    · rw [if_neg he] at hmap
      subst hmap
      exact hd kv' hkv' s hs c hc
  · rw [if_neg hin]
    intro kv hkv s hs c hc
    rcases List.mem_append.mp hkv with hmem | hmem
    · exact hd kv hmem s hs c hc
    · rw [List.mem_singleton] at hmem
      subst hmem
      exact hv s hs c hc

theorem parseDictAux_nil {fuel : Nat} {s : Str} {acc : Dict}
    (h : s.dropWhile (fun c => !(c = '/')) = []) :
    parseDictAux (fuel + 1) s acc = acc := by
  unfold parseDictAux
  rw [h]

theorem parseDictAux_cons {fuel : Nat} {s : Str} {acc : Dict} {hd : Char} {tl : Str}
    (h : s.dropWhile (fun c => !(c = '/')) = hd :: tl) :
    parseDictAux (fuel + 1) s acc =
      match parseKeyMatch tl with
      | none => parseDictAux fuel tl acc
      | some (key, v, rest) => parseDictAux fuel rest (dictInsert acc key v) := by
  conv_lhs => unfold parseDictAux
  rw [h]

theorem pkmValue_good {key r rest : Str} {v : DictValue}
    (h : pkmValue key r = some (key, v, rest)) :
    ∀ s, v = DictValue.str s → ∀ c ∈ s, valueClass c = true := by
  unfold pkmValue at h
  cases hps : pickStart r (r.takeWhile jsWs).length with
  | none =>
    rw [hps] at h
    simp only [Option.some.injEq, Prod.mk.injEq] at h
    intro s hs
    rw [← h.2.1] at hs
    cases hs
  | some i =>
    rw [hps] at h
    simp only [Option.some.injEq, Prod.mk.injEq] at h
    intro s hs c hc
    rw [← h.2.1] at hs
    cases hs
    exact List.mem_takeWhile_imp (mem_strTrim hc)

theorem parseKeyMatch_good {afterSlash key : Str} {v : DictValue} {rest : Str}
    (h : parseKeyMatch afterSlash = some (key, v, rest)) :
    ∀ s, v = DictValue.str s → ∀ c ∈ s, valueClass c = true := by
  unfold parseKeyMatch at h
  by_cases hkey : afterSlash.takeWhile isWordChar = []
  · rw [if_pos hkey] at h
    cases h
  · rw [if_neg hkey] at h
    have hk : key = afterSlash.takeWhile isWordChar := by
      unfold pkmValue at h
      cases hps : pickStart (afterSlash.drop (afterSlash.takeWhile isWordChar).length)
          ((afterSlash.drop (afterSlash.takeWhile isWordChar).length).takeWhile jsWs).length with
      | none =>
        rw [hps] at h
        simp only [Option.some.injEq, Prod.mk.injEq] at h
        exact h.1.symm
      | some i =>
        rw [hps] at h
        simp only [Option.some.injEq, Prod.mk.injEq] at h
        exact h.1.symm
    rw [hk] at h
    exact pkmValue_good h

theorem parseDictAux_good :
    ∀ (fuel : Nat) (s : Str) (acc : Dict), GoodDict acc →
      GoodDict (parseDictAux fuel s acc) := by
  intro fuel
  induction fuel with
  | zero => intro s acc hacc; exact hacc
  | succ fuel ih =>
    intro s acc hacc
    cases hdw : s.dropWhile (fun c => !(c = '/')) with
    | nil =>
      rw [parseDictAux_nil hdw]
      exact hacc
    | cons hd tl =>
      rw [parseDictAux_cons hdw]
      cases hkm : parseKeyMatch tl with
      | none => exact ih tl acc hacc
      | some triple =>
        obtain ⟨key, v, rest⟩ := triple
        exact ih rest _ (goodDict_insert hacc (parseKeyMatch_good hkm))

theorem parseDictFromRaw_good (raw : Str) : GoodDict (parseDictFromRaw raw) := by
  apply parseDictAux_good
  intro kv hkv
  cases hkv

theorem dictGet_mem {d : Dict} {k : Str} {v : DictValue} (h : dictGet d k = some v) :
    ∃ kv ∈ d, kv.2 = v := by
  unfold dictGet at h
  cases hf : d.find? (fun p => p.1 = k) with
  | none => rw [hf] at h; cases h
  | some q =>
    rw [hf] at h
    simp only [Option.map_some', Option.some.injEq] at h
    exact ⟨q, List.mem_of_find?_eq_some hf, h⟩

/-- Claim C10: every value string produced by the dictionary parser excludes
`/`, `>`, CR and LF (so it never begins with `/`); consequently the XMP
trigger's comparisons against `"/Metadata"` and `"/XML"` are unsatisfiable,
and on parsed dictionaries the `looksLikeXmp` test reduces to exactly
`Type = "Metadata"` or `Subtype = "XML"` or a bare `XML` flag — and the
probe list does register a creator-tool hook, so the extraction path is
gated by that reduced test alone. -/
theorem c10_value_class_and_xmp_trigger :
    (∀ (raw k v : Str), dictGet (parseDictFromRaw raw) k = some (DictValue.str v) →
        (∀ c ∈ v, c ≠ '/' ∧ c ≠ '>' ∧ c ≠ '\n' ∧ c ≠ '\r') ∧ v.head? ≠ some '/') ∧
      (∀ raw : Str,
        dictGet (parseDictFromRaw raw) (S "Type") ≠ some (DictValue.str (S "/Metadata")) ∧
        dictGet (parseDictFromRaw raw) (S "Subtype") ≠ some (DictValue.str (S "/XML"))) ∧
      (∀ raw : Str, looksLikeXmp (parseDictFromRaw raw) =
        (decide (dictGet (parseDictFromRaw raw) (S "Type") =
            some (DictValue.str (S "Metadata"))) ||
          decide (dictGet (parseDictFromRaw raw) (S "Subtype") =
            some (DictValue.str (S "XML"))) ||
          decide (dictGet (parseDictFromRaw raw) (S "XML") = some DictValue.flag))) ∧
      creatorToolListeners subtypeProbes ≠ [] := by
  have part1 : ∀ (raw k v : Str),
      dictGet (parseDictFromRaw raw) k = some (DictValue.str v) →
      (∀ c ∈ v, c ≠ '/' ∧ c ≠ '>' ∧ c ≠ '\n' ∧ c ≠ '\r') ∧ v.head? ≠ some '/' := by
    intro raw k v h
    obtain ⟨kv, hmem, hkv⟩ := dictGet_mem h
    have hgood := parseDictFromRaw_good raw kv hmem v hkv
    have hall : ∀ c ∈ v, c ≠ '/' ∧ c ≠ '>' ∧ c ≠ '\n' ∧ c ≠ '\r' := by
      intro c hc
      have := hgood c hc
      unfold valueClass at this
      simp only [Bool.not_eq_eq_eq_not, Bool.not_true, Bool.or_eq_false_iff,
        decide_eq_false_iff_not] at this
      exact ⟨this.1.1.1, this.1.1.2, this.1.2, this.2⟩
    refine ⟨hall, ?_⟩
    intro hh
    cases v with
    | nil => cases hh
    | cons c0 rest =>
      simp only [List.head?_cons, Option.some.injEq] at hh
      subst hh
      exact (hall '/' (List.mem_cons_self _ _)).1 rfl
  have part2 : ∀ raw : Str,
      dictGet (parseDictFromRaw raw) (S "Type") ≠ some (DictValue.str (S "/Metadata")) ∧
      dictGet (parseDictFromRaw raw) (S "Subtype") ≠ some (DictValue.str (S "/XML")) := by
    intro raw
    constructor
    · intro h
      exact (part1 raw (S "Type") (S "/Metadata") h).2 rfl
    · intro h
      exact (part1 raw (S "Subtype") (S "/XML") h).2 rfl
  refine ⟨part1, part2, ?_, ?_⟩
  · intro raw
    unfold looksLikeXmp
    rw [decide_eq_false (part2 raw).1, decide_eq_false (part2 raw).2]
    simp [Bool.or_assoc]
  · intro h
    simp [creatorToolListeners, subtypeProbes, createIllustratorProbe] at h

/-- Witness for C10 at a concrete dictionary text. -/
theorem c10_witness :
    (∀ c ∈ S "Metadata", c ≠ '/' ∧ c ≠ '>' ∧ c ≠ '\n' ∧ c ≠ '\r') ∧
      (S "Metadata").head? ≠ some '/' :=
  c10_value_class_and_xmp_trigger.1 (S "/Type Metadata") (S "Type") (S "Metadata") rfl

/-! ## Stream-filter decoding claims (C5, C6) -/

theorem inflateFlateDecode_cases (ext : Ext) (d : List Nat) :
    (∃ o, inflateFlateDecode ext d = .ok o) ∨
      inflateFlateDecode ext d = .error DetectErr.streamDecodeFail := by
  unfold inflateFlateDecode
  cases ext.inflateZlib d with
  | some o => exact Or.inl ⟨o, rfl⟩
  | none =>
    cases ext.inflateRaw d with
    | some o => exact Or.inl ⟨o, rfl⟩
    | none => exact Or.inr rfl

theorem applyFilters_mem_nonflate :
    ∀ (fs : List Str) (ext : Ext) (raw cur : List Nat) (g : Str),
      g ∈ fs → g ≠ S "FlateDecode" →
      applyFilters ext raw fs cur = .ok raw ∨
        applyFilters ext raw fs cur = .error DetectErr.streamDecodeFail := by
  intro fs
  induction fs with
  | nil => intro ext raw cur g hg; cases hg
  | cons f fs ih =>
    intro ext raw cur g hg hne
    by_cases hf : f = S "FlateDecode"
    · have hg' : g ∈ fs := by
        rcases List.mem_cons.mp hg with h | h
        · exact absurd (h.trans hf) hne
        · exact h
      have hstep : applyFilters ext raw (f :: fs) cur =
          match inflateFlateDecode ext cur with
          | .error e => .error e
          | .ok o => applyFilters ext raw fs o := by
        simp [applyFilters, hf]
      rw [hstep]
      rcases inflateFlateDecode_cases ext cur with ⟨o, ho⟩ | ho
      · rw [ho]
        exact ih ext raw o g hg' hne
      · rw [ho]
        exact Or.inr rfl
    · have hstep : applyFilters ext raw (f :: fs) cur = .ok raw := by
        simp [applyFilters, hf]
      rw [hstep]
      exact Or.inl rfl

/-- Claim C5: when the normalized filter chain is FlateDecode alone and both
deflate attempts fail on the payload, the decode step yields the
stream-decode error (never the raw bytes); and end to end, on a concrete
PDF declaring such a chain with an always-failing decompressor, the whole
`detect` call reports that error. -/
theorem c5_flate_failure_propagates :
    (∀ (ext : Ext) (info : Dict) (raw : List Nat),
        normalizeFilters (dictGet info (S "Filter")) = [S "FlateDecode"] →
        ext.inflateZlib raw = none → ext.inflateRaw raw = none →
        decodeStreamBytes ext info raw = .error DetectErr.streamDecodeFail) ∧
      (detectPdf extTriv ⟨flateInput, 0⟩ defaultOpts).1 =
        .error DetectErr.streamDecodeFail := by
  constructor
  · intro ext info raw hfil hz hr
    unfold decodeStreamBytes
    rw [hfil]
    simp [applyFilters, inflateFlateDecode, hz, hr]
  · rfl

/-- Witness for C5 at a concrete dictionary, payload and failing oracle. -/
theorem c5_witness :
    decodeStreamBytes extTriv (parseDictFromRaw (S "/Filter FlateDecode")) [0, 0, 0, 0] =
      .error DetectErr.streamDecodeFail :=
  c5_flate_failure_propagates.1 extTriv (parseDictFromRaw (S "/Filter FlateDecode"))
    [0, 0, 0, 0] rfl rfl rfl

/-- Counterexample to claim C6 as stated: the chain declared by
`/Filter FlateDecode LZWDecode` contains the recognized non-FlateDecode
filter `LZWDecode`, yet with a decompressor that fails on the payload the
decode step aborts with the stream-decode error instead of passing the raw
bytes through — the FlateDecode entry preceding the unsupported name is
still decoded (and its failure propagates), so decoding is not "skipped
entirely". -/
theorem c6_counterexample :
    (S "LZWDecode") ∈ normalizeFilters (dictGet mixedFilterInfo (S "Filter")) ∧
      decodeStreamBytes extTriv mixedFilterInfo [1, 2, 3, 4] =
        .error DetectErr.streamDecodeFail ∧
      decodeStreamBytes extTriv mixedFilterInfo [1, 2, 3, 4] ≠ .ok [1, 2, 3, 4] := by
  refine ⟨by decide, rfl, ?_⟩
  intro hcon
  have heq : decodeStreamBytes extTriv mixedFilterInfo [1, 2, 3, 4] =
      .error DetectErr.streamDecodeFail := rfl
  rw [heq] at hcon
  cases hcon

/-- Claim C6, amended: a missing `Filter` entry passes the raw bytes
through; a chain whose first recognized filter is not FlateDecode is
skipped entirely and passes the raw bytes through; and in general, when any
recognized filter in the chain is not FlateDecode, the decode step either
passes the raw bytes through unchanged or fails with the stream-decode
error of an earlier FlateDecode entry — it never returns transformed
bytes. -/
theorem c6_amended_passthrough :
    (∀ (ext : Ext) (info : Dict) (raw : List Nat),
        dictGet info (S "Filter") = none → decodeStreamBytes ext info raw = .ok raw) ∧
      (∀ (ext : Ext) (info : Dict) (raw : List Nat) (f : Str) (fs : List Str),
        normalizeFilters (dictGet info (S "Filter")) = f :: fs → f ≠ S "FlateDecode" →
        decodeStreamBytes ext info raw = .ok raw) ∧
      (∀ (ext : Ext) (info : Dict) (raw : List Nat) (g : Str),
        g ∈ normalizeFilters (dictGet info (S "Filter")) → g ≠ S "FlateDecode" →
        decodeStreamBytes ext info raw = .ok raw ∨
          decodeStreamBytes ext info raw = .error DetectErr.streamDecodeFail) := by
  refine ⟨?_, ?_, ?_⟩
  · intro ext info raw h
    unfold decodeStreamBytes
    rw [h]
    rfl
  · intro ext info raw f fs hfil hne
    unfold decodeStreamBytes
    rw [hfil]
    simp [applyFilters, hne]
  · intro ext info raw g hg hne
    unfold decodeStreamBytes
    cases hfil : normalizeFilters (dictGet info (S "Filter")) with
    | nil => rw [hfil] at hg; cases hg
    | cons f fs =>
      rw [hfil] at hg
      simp only [List.cons_ne_nil, if_false]
      exact applyFilters_mem_nonflate (f :: fs) ext raw raw g hg hne

/-- Witness for the amended C6 at concrete dictionaries and payloads. -/
theorem c6_witness :
    decodeStreamBytes extTriv (parseDictFromRaw (S "/Length 4")) [9, 9] = .ok [9, 9] ∧
      decodeStreamBytes extTriv (parseDictFromRaw (S "/Filter LZWDecode")) [7] = .ok [7] ∧
      (decodeStreamBytes extTriv mixedFilterInfo [1, 2, 3, 4] = .ok [1, 2, 3, 4] ∨
        decodeStreamBytes extTriv mixedFilterInfo [1, 2, 3, 4] =
          .error DetectErr.streamDecodeFail) :=
  ⟨c6_amended_passthrough.1 extTriv (parseDictFromRaw (S "/Length 4")) [9, 9] rfl,
    c6_amended_passthrough.2.1 extTriv (parseDictFromRaw (S "/Filter LZWDecode")) [7]
      (S "LZWDecode") [] rfl (by decide),
    c6_amended_passthrough.2.2 extTriv mixedFilterInfo [1, 2, 3, 4] (S "LZWDecode")
      (by decide) (by decide)⟩

/-! ## Indirect stream length (C7) -/

/-- Claim C7 is a code bug: for a stream whose `Length` value is the
indirect reference `17 0 R`, the scanner does not skip the stream —
JS `parseInt("17 0 R", 10)` parses the leading `17`, so 17 payload bytes
are read and probed.  On `indirectLenInput`, whose 17 payload bytes are
`Adobe Illustrator`, the call classifies the file as Illustrator, which is
only possible because the payload was read; the claimed skip-and-continue
behaviour would have scanned past `endobj` and returned the generic PDF
classification.  The source's own comment (`skip if not numeric`) states
the claimed behaviour. -/
theorem c7_indirect_length_is_read :
    dictGet (parseDictFromRaw (S "/Length 17 0 R")) (S "Length") =
        some (DictValue.str (S "17 0 R")) ∧
      jsParseInt (S "17 0 R") = some 17 ∧
      (detectPdf extTriv ⟨indirectLenInput, 0⟩ defaultOpts).1 = .ok (some AI_TYPE) :=
  ⟨rfl, rfl, rfl⟩

/-! ## Non-consumption on non-PDF input (C1) -/

/-- Claim C1: when the first 1024 bytes at the cursor contain no occurrence
of `%PDF-` (in particular whenever fewer than the signature's 5 bytes are
available), `detect` returns the no-match result and the byte source is
returned exactly as it was — same content, same position, and nothing
logged. -/
theorem c1_no_signature_no_consumption :
    ∀ (bs : List Nat) (p : Nat) (ext : Ext) (o : Opts),
      ((∀ i, listPre pdfSig (((bs.drop p).take 1024).drop i) = false) →
        detectPdf ext ⟨bs, p⟩ o = (.ok none, ⟨bs, p⟩, [])) ∧
      ((bs.drop p).length < 5 →
        detectPdf ext ⟨bs, p⟩ o = (.ok none, ⟨bs, p⟩, [])) := by
  intro bs p ext o
  have main : (∀ i, listPre pdfSig (((bs.drop p).take 1024).drop i) = false) →
      detectPdf ext ⟨bs, p⟩ o = (.ok none, ⟨bs, p⟩, []) := by
    intro h
    have hpeek : peekPdfHeader ⟨bs, p⟩ = none := by
      unfold peekPdfHeader tokPeek
      exact (subIdx_none_iff _ _).mpr h
    unfold detectPdf
    rw [hpeek]
  refine ⟨main, fun hlen => main ?_⟩
  intro i
  by_contra hcon
  have htrue : listPre pdfSig (((bs.drop p).take 1024).drop i) = true := by
    simpa using hcon
  have hlong := listPre_length htrue
  have hsig : pdfSig.length = 5 := rfl
  have h1 : (((bs.drop p).take 1024).drop i).length ≤ (bs.drop p).length := by
    simp only [List.length_drop, List.length_take]
    omega
  omega

/-- Witness for C1 on the three-zero-byte input. -/
theorem c1_witness :
    detectPdf extTriv ⟨[0, 0, 0], 0⟩ defaultOpts = (.ok none, ⟨[0, 0, 0], 0⟩, []) :=
  (c1_no_signature_no_consumption [0, 0, 0] 0 extTriv defaultOpts).2 (by decide)

/-! ## Determinism and debug-neutrality (C9) -/

theorem scanLoopAux_debug :
    ∀ (fuel : Nat) (c : Core) (ext : Ext) (d1 d2 : Bool),
      (scanLoopAux ext d1 fuel c).1 = (scanLoopAux ext d2 fuel c).1 ∧
        (scanLoopAux ext d1 fuel c).2.1 = (scanLoopAux ext d2 fuel c).2.1 := by
  intro fuel
  induction fuel with
  | zero => intro c ext d1 d2; exact ⟨rfl, rfl⟩
  | succ fuel ih =>
    intro c ext d1 d2
    rcases hs : stepScan ext c with ⟨out, c1, msgs⟩
    cases out with
    | done r => simp [scanLoopAux, hs]
    | cont =>
      obtain ⟨ha, hb⟩ := ih c1 ext d1 d2
      simp only [scanLoopAux, hs]
      rcases hA : scanLoopAux ext d1 fuel c1 with ⟨r1, c2a, rest1⟩
      rcases hB : scanLoopAux ext d2 fuel c1 with ⟨r2, c2b, rest2⟩
      rw [hA, hB] at ha hb
      exact ⟨ha, hb⟩

/-- Claim C9: `detect` is deterministic over byte content and options — two
invocations on two independent cursors with the same content, position and
`maxScanLines` yield the same classification (or the same failure) and the
same final cursor, for any choice of the `debug` flags, which gate the log
only and never influence the result. -/
theorem c9_determinism_and_debug_neutrality :
    ∀ (ext : Ext) (t1 t2 : Tok) (m : Nat) (d1 d2 : Bool),
      t1.data = t2.data → t1.pos = t2.pos →
      (detectPdf ext t1 ⟨d1, m⟩).1 = (detectPdf ext t2 ⟨d2, m⟩).1 ∧
        (detectPdf ext t1 ⟨d1, m⟩).2.1 = (detectPdf ext t2 ⟨d2, m⟩).2.1 := by
  intro ext t1 t2 m d1 d2 hdata hpos
  obtain ⟨dat1, p1⟩ := t1
  obtain ⟨dat2, p2⟩ := t2
  simp only at hdata hpos
  subst hdata
  subst hpos
  set t : Tok := ⟨dat1, p1⟩
  unfold detectPdf
  cases hpeek : peekPdfHeader t with
  | none => exact ⟨rfl, rfl⟩
  | some off =>
    simp only []
    cases hadv : headerAdvance t off with
    | error e => exact ⟨rfl, rfl⟩
    | ok t1' =>
      simp only []
      obtain ⟨ha, hb⟩ :=
        scanLoopAux_debug m ⟨mkReader t1', none, 0⟩ ext d1 d2
      rcases hA : scanLoopAux ext d1 m ⟨mkReader t1', none, 0⟩ with ⟨r1, c1a, la⟩
      rcases hB : scanLoopAux ext d2 m ⟨mkReader t1', none, 0⟩ with ⟨r2, c1b, lb⟩
      rw [hA, hB] at ha hb
      simp only at ha hb
      subst ha
      subst hb
      cases r1 with
      | error e => exact ⟨rfl, rfl⟩
      | ok v =>
        cases v with
        | none => exact ⟨rfl, rfl⟩
        | some r => exact ⟨rfl, rfl⟩

/-- Witness for C9 on a concrete input and differing debug flags. -/
theorem c9_witness :
    (detectPdf extTriv ⟨asciiB "%PDF-1.1", 0⟩ ⟨true, 50000⟩).1 =
        (detectPdf extTriv ⟨asciiB "%PDF-1.1", 0⟩ ⟨false, 50000⟩).1 ∧
      (detectPdf extTriv ⟨asciiB "%PDF-1.1", 0⟩ ⟨true, 50000⟩).2.1 =
        (detectPdf extTriv ⟨asciiB "%PDF-1.1", 0⟩ ⟨false, 50000⟩).2.1 :=
  c9_determinism_and_debug_neutrality extTriv ⟨asciiB "%PDF-1.1", 0⟩
    ⟨asciiB "%PDF-1.1", 0⟩ 50000 true false rfl rfl

/-! ## Signature sufficiency and the exhaustion default (C2) -/

/-- Claim C2: the exact 8-byte input `%PDF-1.1` — signature at offset 0 and
no object structure whatsoever — is classified as a generic PDF, for any
external oracle; and in general, whenever the signature gate passes and the
scan loop ends by exhaustion (source or line budget) without any probe
match (`.ok none`), the call's result is the generic PDF classification. -/
theorem c2_signature_sufficiency :
    (∀ ext : Ext,
        (detectPdf ext ⟨asciiB "%PDF-1.1", 0⟩ defaultOpts).1 = .ok (some PDF_TYPE)) ∧
      (∀ (ext : Ext) (t : Tok) (o : Opts) (off : Nat) (t1 : Tok),
        peekPdfHeader t = some off → headerAdvance t off = .ok t1 →
        (scanLoopAux ext o.debug o.maxScanLines ⟨mkReader t1, none, 0⟩).1 = .ok none →
        (detectPdf ext t o).1 = .ok (some PDF_TYPE)) := by
  constructor
  · intro ext
    rfl
  · intro ext t o off t1 hpeek hadv hloop
    unfold detectPdf
    rw [hpeek]
    simp only []
    rw [hadv]
    simp only []
    rw [hloop]

/-- Witness for C2's general part at the 8-byte signature input. -/
theorem c2_witness :
    (detectPdf extTriv ⟨asciiB "%PDF-1.1", 0⟩ ⟨false, 50000⟩).1 = .ok (some PDF_TYPE) :=
  c2_signature_sufficiency.2 extTriv ⟨asciiB "%PDF-1.1", 0⟩ ⟨false, 50000⟩ 0
    ⟨asciiB "%PDF-1.1", 0⟩ rfl rfl rfl

/-! ## Scan-loop stepping machinery (for C3 and C4) -/

theorem listPre_take {α : Type} [DecidableEq α] :
    ∀ {p l : List α} {n : Nat}, listPre p l = true → p.length ≤ n →
      listPre p (l.take n) = true := by
  intro p
  induction p with
  | nil => intro l n _ _; cases l.take n <;> rfl
  | cons a as ih =>
    intro l n h hn
    cases l with
    | nil => simp [listPre] at h
    | cons b bs =>
      cases n with
      | zero => simp at hn
      | succ n =>
        simp only [listPre, Bool.and_eq_true] at h
        simp only [List.take_succ_cons, listPre, Bool.and_eq_true]
        exact ⟨h.1, ih h.2 (by simpa using hn)⟩

theorem splitLine_ascii {pre : List Nat} {i : Nat} {lineB : List Nat} (tail : List Nat)
    (h : subIdx pre [10] = some i) (hline : stripCR (pre.take i) = lineB)
    (hrest : pre.drop (i + 1) = []) :
    splitLine (pre ++ tail) = some (lineB, tail) := by
  rw [splitLine_concat h, hrest, hline, List.nil_append]

theorem readLine_concrete {st : RdSt} {pre tail lineB : List Nat} {i : Nat}
    (hwf : Wf st) (hrem : remaining st = pre ++ tail)
    (h : subIdx pre [10] = some i) (hline : stripCR (pre.take i) = lineB)
    (hrest : pre.drop (i + 1) = []) :
    (readLine st).1 = some (latin1 lineB) ∧ Wf (readLine st).2 ∧
      remaining (readLine st).2 = tail := by
  obtain ⟨hwf2, hspec⟩ := readLine_spec st hwf
  have hsp : splitLine (remaining st) = some (lineB, tail) := by
    rw [hrem]
    exact splitLine_ascii tail h hline hrest
  rcases hspec with ⟨hs, _, _⟩ | ⟨l, rest, hs, hr, hrm⟩
  · rw [hsp] at hs; cases hs
  · rw [hsp] at hs
    simp only [Option.some.injEq, Prod.mk.injEq] at hs
    rw [hr, hrm, hs.1, hs.2]
    exact ⟨rfl, hwf2, rfl⟩

theorem scanLoopAux_cont {ext : Ext} {d : Bool} {fuel : Nat} {c c2 : Core}
    {msgs : List String} (h : stepScan ext c = (.cont, c2, msgs)) :
    (scanLoopAux ext d (fuel + 1) c).1 = (scanLoopAux ext d fuel c2).1 := by
  simp only [scanLoopAux, h]

theorem scanLoopAux_done {ext : Ext} {d : Bool} {fuel : Nat} {c c2 : Core}
    {msgs : List String} {r : Except DetectErr (Option FileTypeResult)}
    (h : stepScan ext c = (.done r, c2, msgs)) :
    (scanLoopAux ext d (fuel + 1) c).1 = r := by
  simp only [scanLoopAux, h]

theorem stepScan_root_obj {ext : Ext} {c : Core} {rd' : RdSt} {line : Str}
    (hpend : c.pending = none) (hmode : c.mode = 0)
    (hrl : readLine c.rd = (some line, rd'))
    (hobj : matchObjLine line = true) :
    stepScan ext c = (.cont, ⟨rd', none, 10⟩, ["found object"]) := by
  unfold stepScan wrapperRead
  rw [hpend, hrl]
  simp [hmode, hobj]

theorem stepScan_root_skip {ext : Ext} {c : Core} {rd' : RdSt} {line : Str}
    (hpend : c.pending = none) (hmode : c.mode = 0)
    (hrl : readLine c.rd = (some line, rd'))
    (hobj : matchObjLine line = false) :
    stepScan ext c = (.cont, ⟨rd', none, 0⟩, []) := by
  unfold stepScan wrapperRead
  rw [hpend, hrl]
  simp [hmode, hobj]

theorem stepScan_obj_skip {ext : Ext} {c : Core} {rd' : RdSt} {line : Str}
    (hpend : c.pending = none) (hmode : c.mode = 10)
    (hrl : readLine c.rd = (some line, rd'))
    (hne : strTrim line ≠ S "endobj")
    (hlt : strContains line (S "<<") = false) :
    stepScan ext c = (.cont, ⟨rd', none, 10⟩, []) := by
  unfold stepScan wrapperRead
  rw [hpend, hrl]
  simp [hmode, hne, hlt]

theorem stepScan_obj_dict_hit {ext : Ext} {c : Core} {rd' rd2 : RdSt} {line dictText : Str}
    {si : Bool} {hit : FileTypeResult}
    (hpend : c.pending = none) (hmode : c.mode = 10)
    (hrl : readLine c.rd = (some line, rd'))
    (hne : strTrim line ≠ S "endobj")
    (hlt : strContains line (S "<<") = true)
    (hdb : readDictionaryBlock rd' line = (some dictText, si, rd2))
    (hhit : runDictProbes subtypeProbes dictText (parseDictFromRaw dictText) = some hit) :
    stepScan ext c = (.done (.ok (some hit)), ⟨rd2, none, 10⟩, ["dict"]) := by
  unfold stepScan wrapperRead
  rw [hpend, hrl]
  simp only [hmode]
  rw [if_neg (by simp)]
  rw [if_neg (by simpa using hne)]
  rw [if_neg (by simp [hlt])]
  unfold dictPhase
  simp only []
  rw [hdb]
  simp only []
  rw [hhit]

theorem readDictionaryBlock_inline {st : RdSt} {raw : Str}
    (h : strContains raw (S ">>") = true) :
    readDictionaryBlock st raw = dictBlockFinish st raw := by
  unfold readDictionaryBlock dictBlockAux
  rw [h]
  simp

/-! ## Budget termination (C4) -/

theorem remaining_mkReader (bs : List Nat) :
    remaining (mkReader ⟨bs, 0⟩) = bs := by
  simp [remaining, mkReader]

theorem scanLoop_objRep :
    ∀ (fuel : Nat) (c : Core) (k : Nat) (ext : Ext) (d : Bool),
      Wf c.rd → c.pending = none → (c.mode = 0 ∨ c.mode = 10) →
      remaining c.rd = objRep k → fuel ≤ k →
      (scanLoopAux ext d fuel c).1 = .ok none := by
  intro fuel
  induction fuel with
  | zero => intro c k ext d _ _ _ _ _; rfl
  | succ fuel ih =>
    intro c k ext d hwf hpend hmode hrem hk
    cases k with
    | zero => omega
    | succ k =>
      have hdec : remaining c.rd = asciiB "1 0 obj\n" ++ objRep k := hrem
      have h7 : subIdx (asciiB "1 0 obj\n") [10] = some 7 := rfl
      obtain ⟨hl, hwf', hrem'⟩ := readLine_concrete hwf hdec h7 rfl rfl
      rcases hrl : readLine c.rd with ⟨lo, rd'⟩
      rw [hrl] at hl hwf' hrem'
      simp only [] at hl hwf' hrem'
      rw [hl] at hrl
      have hobjT : matchObjLine (latin1 (asciiB "1 0 obj")) = true := by decide
      have hnend : strTrim (latin1 (asciiB "1 0 obj")) ≠ S "endobj" := by decide
      have hnlt : strContains (latin1 (asciiB "1 0 obj")) (S "<<") = false := by decide
      rcases hmode with hm | hm
      · have hstep := @stepScan_root_obj ext c rd' (latin1 (asciiB "1 0 obj"))
          hpend hm hrl hobjT
        rw [scanLoopAux_cont hstep]
        exact ih ⟨rd', none, 10⟩ k ext d hwf' rfl (Or.inr rfl) hrem' (by omega)
      · have hstep := @stepScan_obj_skip ext c rd' (latin1 (asciiB "1 0 obj"))
          hpend hm hrl hnend hnlt
        rw [scanLoopAux_cont hstep]
        exact ih ⟨rd', none, 10⟩ k ext d hwf' rfl (Or.inr rfl) hrem' (by omega)

/-- Claim C4: on an input consisting of the signature line followed by
`maxScanLines + 1` well-formed object-start lines and no terminating
structure, `detect` terminates with the generic PDF classification for
every budget `m` — the loop is fuelled by exactly `maxScanLines`
iterations, and an exhausted budget (fuel 0) is the non-error loop exit,
never a failure. -/
theorem c4_budget_termination :
    (∀ (m : Nat) (d : Bool) (ext : Ext),
        (detectPdf ext ⟨asciiB "%PDF-1.4\n" ++ objRep (m + 1), 0⟩ ⟨d, m⟩).1 =
          .ok (some PDF_TYPE)) ∧
      (∀ (ext : Ext) (d : Bool) (c : Core),
        scanLoopAux ext d 0 c = (.ok none, c, [])) := by
  constructor
  · intro m d ext
    have hpre : listPre pdfSig (asciiB "%PDF-1.4\n") = true := rfl
    have hpeek : peekPdfHeader ⟨asciiB "%PDF-1.4\n" ++ objRep (m + 1), 0⟩ = some 0 := by
      unfold peekPdfHeader tokPeek
      apply subIdx_zero_of_pre
      simp only [List.drop_zero]
      exact listPre_take (listPre_append hpre _) (by decide)
    have hloop : (scanLoopAux ext d m
        ⟨mkReader ⟨asciiB "%PDF-1.4\n" ++ objRep (m + 1), 0⟩, none, 0⟩).1 = .ok none := by
      cases m with
      | zero => rfl
      | succ m =>
        have hwf0 : Wf (mkReader ⟨asciiB "%PDF-1.4\n" ++ objRep (m + 1 + 1), 0⟩) :=
          wf_mkReader (by simp)
        have hrem0 : remaining (mkReader ⟨asciiB "%PDF-1.4\n" ++ objRep (m + 1 + 1), 0⟩) =
            asciiB "%PDF-1.4\n" ++ objRep (m + 1 + 1) := remaining_mkReader _
        have h8 : subIdx (asciiB "%PDF-1.4\n") [10] = some 8 := rfl
        obtain ⟨hl, hwf', hrem'⟩ := readLine_concrete hwf0 hrem0 h8 rfl rfl
        rcases hrl : readLine (mkReader ⟨asciiB "%PDF-1.4\n" ++ objRep (m + 1 + 1), 0⟩)
          with ⟨lo, rd'⟩
        rw [hrl] at hl hwf' hrem'
        simp only [] at hl hwf' hrem'
        rw [hl] at hrl
        have hobjF : matchObjLine (latin1 (asciiB "%PDF-1.4")) = false := by decide
        have hstep := @stepScan_root_skip ext
          ⟨mkReader ⟨asciiB "%PDF-1.4\n" ++ objRep (m + 1 + 1), 0⟩, none, 0⟩ rd'
          (latin1 (asciiB "%PDF-1.4")) rfl rfl hrl hobjF
        rw [scanLoopAux_cont hstep]
        exact scanLoop_objRep m ⟨rd', none, 0⟩ (m + 1 + 1) ext d hwf' rfl (Or.inl rfl)
          hrem' (by omega)
    unfold detectPdf
    rw [hpeek]
    simp only []
    rw [show headerAdvance ⟨asciiB "%PDF-1.4\n" ++ objRep (m + 1), 0⟩ 0 =
      .ok ⟨asciiB "%PDF-1.4\n" ++ objRep (m + 1), 0⟩ from rfl]
    simp only []
    rw [hloop]
  · intro ext d c
    rfl

/-! ## Subtype precedence and first-hit short-circuit (C3) -/

/-- Claim C3: every listed Illustrator marker makes the corresponding probe
hook definitive (`AI_TYPE`): the dictionary hook on the `Illustrator` flag,
a `/Illustrator` or `Adobe Illustrator` substring of the dictionary text,
or an `Illustrator`-containing `Creator`/`Producer` value; the creator-tool
hook on a case-insensitive `illustrator` substring; the stream-text hook on
an `Adobe Illustrator` substring.  A dictionary hit ends the scan at that
probe checkpoint with the Illustrator classification no matter what bytes
remain unscanned (arbitrary `rest`), and the decoded-stream and
XMP-creator-tool checkpoints likewise yield the Illustrator classification
end to end on concrete inputs. -/
theorem c3_illustrator_precedence :
    (∀ (dt : Str) (dict : Dict),
        (dictGet dict (S "Illustrator") = some DictValue.flag ∨
          strContains dt (S "/Illustrator") = true ∨
          (∃ s, dictGet dict (S "Creator") = some (DictValue.str s) ∧ s ≠ [] ∧
            strContains s (S "Illustrator") = true) ∨
          (∃ s, dictGet dict (S "Producer") = some (DictValue.str s) ∧ s ≠ [] ∧
            strContains s (S "Illustrator") = true) ∨
          strContains dt (S "Adobe Illustrator") = true) →
        illuOnDict dt dict = some AI_TYPE) ∧
      (∀ ct : Str, strContains (strLower ct) (S "illustrator") = true →
        illuOnCreatorTool ct = some AI_TYPE) ∧
      (∀ (stx : Str) (info : Dict), strContains stx (S "Adobe Illustrator") = true →
        illuOnStreamText stx info = some AI_TYPE) ∧
      (∀ (rest : List Nat) (ext : Ext) (d : Bool) (m : Nat), 3 ≤ m →
        (detectPdf ext ⟨aiPre ++ rest, 0⟩ ⟨d, m⟩).1 = .ok (some AI_TYPE)) ∧
      (detectPdf extTriv ⟨aiStreamInput, 0⟩ defaultOpts).1 = .ok (some AI_TYPE) ∧
      (detectPdf extXmp ⟨xmpInput, 0⟩ defaultOpts).1 = .ok (some AI_TYPE) := by
  refine ⟨?_, ?_, ?_, ?_, rfl, rfl⟩
  · intro dt dict h
    unfold illuOnDict
    split_ifs with h1 h2 h3 h4 h5
    · rfl
    · rfl
    · rfl
    · rfl
    · rfl
    · exfalso
      rcases h with h | h | ⟨s, hs, hne, hc⟩ | ⟨s, hs, hne, hc⟩ | h
      · exact h1 h
      · exact h2 h
      · apply h3
        unfold creatorHit
        rw [hs]
        simp [hne, hc]
      · apply h4
        unfold creatorHit
        rw [hs]
        simp [hne, hc]
      · exact h5 h
  · intro ct h
    unfold illuOnCreatorTool
    rw [if_pos h]
  · intro stx info h
    unfold illuOnStreamText
    rw [if_pos h]
  · intro rest ext d m hm
    obtain ⟨m3, rfl⟩ : ∃ m3, m = m3 + 3 := ⟨m - 3, by omega⟩
    have hpp : listPre pdfSig aiPre = true := rfl
    have hpeek : peekPdfHeader ⟨aiPre ++ rest, 0⟩ = some 0 := by
      unfold peekPdfHeader tokPeek
      apply subIdx_zero_of_pre
      simp only [List.drop_zero]
      exact listPre_take (listPre_append hpp _) (by decide)
    have hloop : (scanLoopAux ext d (m3 + 3)
        ⟨mkReader ⟨aiPre ++ rest, 0⟩, none, 0⟩).1 = .ok (some AI_TYPE) := by
      have hwf0 : Wf (mkReader ⟨aiPre ++ rest, 0⟩) := wf_mkReader (by simp)
      have hrem0 : remaining (mkReader ⟨aiPre ++ rest, 0⟩) =
          asciiB "%PDF-1.2\n" ++
            (asciiB "1 0 obj\n" ++ (asciiB "<</Illustrator>>\n" ++ rest)) := by
        rw [remaining_mkReader]
        rfl
      -- iteration 1: the header line in ROOT
      have h8 : subIdx (asciiB "%PDF-1.2\n") [10] = some 8 := rfl
      obtain ⟨hl1, hwf1, hrem1⟩ := readLine_concrete hwf0 hrem0 h8 rfl rfl
      rcases hrl1 : readLine (mkReader ⟨aiPre ++ rest, 0⟩) with ⟨lo1, rd1⟩
      rw [hrl1] at hl1 hwf1 hrem1
      simp only [] at hl1 hwf1 hrem1
      rw [hl1] at hrl1
      have hstep1 := @stepScan_root_skip ext ⟨mkReader ⟨aiPre ++ rest, 0⟩, none, 0⟩ rd1
        (latin1 (asciiB "%PDF-1.2")) rfl rfl hrl1 (by decide)
      show (scanLoopAux ext d (m3 + 2 + 1) ⟨mkReader ⟨aiPre ++ rest, 0⟩, none, 0⟩).1 =
        .ok (some AI_TYPE)
      rw [scanLoopAux_cont hstep1]
      -- iteration 2: the object-start line
      have h7 : subIdx (asciiB "1 0 obj\n") [10] = some 7 := rfl
      obtain ⟨hl2, hwf2, hrem2⟩ := readLine_concrete hwf1 hrem1 h7 rfl rfl
      rcases hrl2 : readLine rd1 with ⟨lo2, rd2⟩
      rw [hrl2] at hl2 hwf2 hrem2
      simp only [] at hl2 hwf2 hrem2
      rw [hl2] at hrl2
      have hstep2 := @stepScan_root_obj ext ⟨rd1, none, 0⟩ rd2
        (latin1 (asciiB "1 0 obj")) rfl rfl hrl2 (by decide)
      show (scanLoopAux ext d (m3 + 1 + 1) ⟨rd1, none, 0⟩).1 = .ok (some AI_TYPE)
      rw [scanLoopAux_cont hstep2]
      -- iteration 3: the dictionary line carrying the Illustrator flag
      have h16 : subIdx (asciiB "<</Illustrator>>\n") [10] = some 16 := rfl
      obtain ⟨hl3, hwf3, hrem3⟩ := readLine_concrete hwf2 hrem2 h16 rfl rfl
      rcases hrl3 : readLine rd2 with ⟨lo3, rd3⟩
      rw [hrl3] at hl3 hwf3 hrem3
      simp only [] at hl3 hwf3 hrem3
      rw [hl3] at hrl3
      have hdb : readDictionaryBlock rd3 (latin1 (asciiB "<</Illustrator>>")) =
          (some (S "/Illustrator"), false, rd3) := by
        rw [readDictionaryBlock_inline (by decide)]
        rfl
      have hhit : runDictProbes subtypeProbes (S "/Illustrator")
          (parseDictFromRaw (S "/Illustrator")) = some AI_TYPE := rfl
      have hstep3 := @stepScan_obj_dict_hit ext ⟨rd2, none, 10⟩ rd3 rd3
        (latin1 (asciiB "<</Illustrator>>")) (S "/Illustrator") false AI_TYPE
        rfl rfl hrl3 (by decide) (by decide) hdb hhit
      show (scanLoopAux ext d (m3 + 0 + 1) ⟨rd2, none, 10⟩).1 = .ok (some AI_TYPE)
      rw [scanLoopAux_done hstep3]
    unfold detectPdf
    rw [hpeek]
    simp only []
    rw [show headerAdvance ⟨aiPre ++ rest, 0⟩ 0 = .ok ⟨aiPre ++ rest, 0⟩ from rfl]
    simp only []
    rw [hloop]

/-- Witness for C3's conditional parts at concrete markers and input. -/
theorem c3_witness :
    illuOnDict (S "/Illustrator") (parseDictFromRaw (S "/Illustrator")) = some AI_TYPE ∧
      illuOnCreatorTool (S "Adobe Illustrator 25.0") = some AI_TYPE ∧
      illuOnStreamText (S "an Adobe Illustrator file") [] = some AI_TYPE ∧
      (detectPdf extTriv ⟨aiPre ++ asciiB "2 0 obj\nmuch more content\n", 0⟩
          ⟨false, 50000⟩).1 = .ok (some AI_TYPE) :=
  ⟨c3_illustrator_precedence.1 (S "/Illustrator") (parseDictFromRaw (S "/Illustrator"))
      (Or.inl rfl),
    c3_illustrator_precedence.2.1 (S "Adobe Illustrator 25.0") (by decide),
    c3_illustrator_precedence.2.2.1 (S "an Adobe Illustrator file") [] (by decide),
    c3_illustrator_precedence.2.2.2.1 (asciiB "2 0 obj\nmuch more content\n") extTriv
      false 50000 (by decide)⟩

end FileTypePdf
